import Mathlib

/-!
# A shallow embedding of the chia-wallet-sdk driver primitives

This development embeds the Rust sources of the `chia-sdk-driver` and
`chia-sdk-types` crates (the `DataStore` and `CAT` primitives, the typed
condition encoders, and the secp256r1 signature codec) into Lean 4 and
proves the behavioural claims of the specification against them.

Modelling conventions:

* CLVM nodes are the inductive `Clvm`: byte atoms, pairs, and three
  distinguished constructors for the external well-known data — module
  programs (`modP`), canonical curried forms (`curried`) and quoted
  constant programs (`quoted`) — plus `hashAtom h`, a 32-byte atom whose
  content is the digest `h`.
* Hashing (SHA-256 tree hashing, coin ids) is modelled by the free
  algebra `Hash`: the hash functions are injective constructors, which
  encodes the standard collision-freedom assumption.  The invariant
  `tree_hash (curry p args) = curry_tree_hash (tree_hash p) (args.map tree_hash)`
  holds definitionally.
* Machine integers of the source (`u64` amounts, fees) are `Nat`;
  CLVM integer atoms use the minimal signed big-endian encoding, which is
  implemented concretely (`natToBE`, `stripLeadingZeros`, `intToBytes`).
* Fallible Rust code returning `Result` is embedded as `Except`;
  `Option` stays `Option`.  All definitions are executable.
* Code of the repository that is not part of the given sources (layer
  parsers and constructors, the delegation-layer chialisp, the datalayer
  helper module) is modelled from the specification; every such
  definition carries a doc comment starting with `Modelled from the spec:`.
-/

namespace ChiaSdk

/-- Decidable equality for `Except`, so that concrete runs of the fallible
embedded functions can be checked by `decide`. -/
instance {ε α : Type} [DecidableEq ε] [DecidableEq α] : DecidableEq (Except ε α) :=
  fun a b =>
    match a, b with
    | .ok x, .ok y =>
      if h : x = y then .isTrue (by rw [h]) else
        .isFalse (by intro hh; cases hh; exact h rfl)
    | .ok _, .error _ => .isFalse (by intro hh; cases hh)
    | .error _, .ok _ => .isFalse (by intro hh; cases hh)
    | .error e, .error f =>
      if h : e = f then .isTrue (by rw [h]) else
        .isFalse (by intro hh; cases hh; exact h rfl)

/-- Identifiers of the external well-known puzzle modules (§6 of the spec:
`SINGLETON_MOD`, `SINGLETON_LAUNCHER`, `NFT_STATE_LAYER`, `DELEGATION_LAYER`,
`DL_METADATA_UPDATER`, `CAT_MOD`, plus the writer/oracle wrapper modules used
for delegated-puzzle leaves). -/
inductive ModId where
  | singletonMod
  | singletonLauncher
  | nftStateLayer
  | delegationLayer
  | dlMetadataUpdater
  | catMod
  | writerMod
  | oracleMod
  deriving DecidableEq, Repr

/-- The free algebra of digests.  `atomH bs` is the tree hash of the byte atom
`bs`; `pairH l r` the tree hash of a pair; `modH m` the (opaque) module hash of
the external module `m`; `curryH p args` the `curry_tree_hash` of program hash
`p` applied to the arguments whose encoded list has hash `args`; `coinH` is a
coin id (hash of the coin triple); `h32 h` is the tree hash of the 32-byte atom
holding digest `h`.  Constructor injectivity models collision freedom. -/
inductive Hash where
  | atomH (bs : List Nat)
  | pairH (l r : Hash)
  | modH (m : ModId)
  | curryH (prog args : Hash)
  | coinH (parent ph : Hash) (amount : Nat)
  | h32 (h : Hash)
  deriving DecidableEq, Repr

/-- CLVM nodes.  `modP m` is the program of external module `m`; `curried p a`
is the canonical curried form of program `p` with argument list `a` (a CLVM
list); `quoted v` is the constant program `(q . v)`; `hashAtom h` is the
32-byte atom holding digest `h`. -/
inductive Clvm where
  | atom (bs : List Nat)
  | pair (l r : Clvm)
  | modP (m : ModId)
  | curried (prog args : Clvm)
  | quoted (v : Clvm)
  | hashAtom (h : Hash)
  deriving DecidableEq, Repr

namespace Clvm

/-- Build a proper CLVM list (nil-terminated). -/
def clist : List Clvm → Clvm
  | [] => .atom []
  | v :: vs => .pair v (clist vs)

end Clvm

/-- The canonical tree hash of a CLVM node, in the free hash algebra.
Atoms hash as `atomH`, pairs as `pairH`; `quoted v` is the pair
`(1 . v)`; the curried form hashes to `curry_tree_hash` by construction. -/
def treeHash : Clvm → Hash
  | .atom bs => .atomH bs
  | .pair l r => .pairH (treeHash l) (treeHash r)
  | .modP m => .modH m
  | .curried p a => .curryH (treeHash p) (treeHash a)
  | .quoted v => .pairH (.atomH [1]) (treeHash v)
  | .hashAtom h => .h32 h

/-- Hash of a proper CLVM list built from element hashes. -/
def hlist : List Hash → Hash
  | [] => .atomH []
  | h :: hs => .pairH h (hlist hs)

/-- Opaque byte strings (the `Bytes` wire type used for memos).
`ofHash h` is a 32-byte string holding digest `h`; `raw bs` is any other byte
string.  Collision freedom: a raw byte string never coincides with the 32-byte
encoding of a digest. -/
inductive Bytes where
  | ofHash (h : Hash)
  | raw (bs : List Nat)
  deriving DecidableEq, Repr

namespace Bytes

/-- CLVM encoding of a byte string (always an atom). -/
def toClvm : Bytes → Clvm
  | .ofHash h => .hashAtom h
  | .raw bs => .atom bs

/-- `Bytes32::new(b.to_vec().try_into())`: succeeds exactly on 32-byte
strings, i.e. on digest-carrying strings in this model. -/
def toBytes32? : Bytes → Option Hash
  | .ofHash h => some h
  | .raw _ => none

end Bytes

/-- `Coin` wire type: `(parent_coin_info, puzzle_hash, amount)`. -/
structure Coin where
  parent_coin_info : Hash
  puzzle_hash : Hash
  amount : Nat
  deriving DecidableEq, Repr

/-- `Coin::coin_id()`: the hash of the triple. -/
def Coin.coinId (c : Coin) : Hash := .coinH c.parent_coin_info c.puzzle_hash c.amount

/-- `CoinSpend` with the serialized programs kept as CLVM nodes
(serialization is the identity in this model). -/
structure CoinSpend where
  coin : Coin
  puzzle_reveal : Clvm
  solution : Clvm
  deriving DecidableEq, Repr

/-- Singleton lineage proofs (`Proof` = `Eve` / `Lineage`). -/
inductive Proof where
  | eve (parent_parent_coin_info : Hash) (parent_amount : Nat)
  | lineage (parent_parent_coin_info : Hash) (parent_inner_puzzle_hash : Hash)
      (parent_amount : Nat)
  deriving DecidableEq, Repr

/-- `LineageProof` record (used by `child_lineage_proof` and the CAT driver). -/
structure LineageProof where
  parent_parent_coin_info : Hash
  parent_inner_puzzle_hash : Hash
  parent_amount : Nat
  deriving DecidableEq, Repr

/-! ## Integer byte encodings

`get_recreation_memos` manipulates `num_bigint` big-endian signed byte
strings directly, and the CLVM integer atoms (opcodes, amounts) use the
minimal signed big-endian encoding.  Both are implemented here. -/

/-- Big-endian base-256 digits of a natural number (most significant first,
empty for zero), via a fuel-bounded structural recursion so that the kernel
can evaluate it. -/
def natToBEGo : Nat → Nat → List Nat → List Nat
  | 0, _, acc => acc
  | _ + 1, 0, acc => acc
  | f + 1, n + 1, acc => natToBEGo f ((n + 1) / 256) ((n + 1) % 256 :: acc)

/-- Big-endian base-256 digits, most significant first; `[]` for `0`. -/
def natToBE (n : Nat) : List Nat := natToBEGo n n []

/-- Big-endian value of a byte string. -/
def beVal (bs : List Nat) : Nat := bs.foldl (fun a b => a * 256 + b) 0

/-- `num_bigint`'s `BigInt::to_signed_bytes_be` for non-negative values:
`[0]` for zero, the big-endian digits with a `0` sign byte prepended when the
top bit would be set. -/
def toSignedBytesBE (n : Nat) : List Nat :=
  match natToBE n with
  | [] => [0]
  | c :: cs => if 128 ≤ c then 0 :: c :: cs else c :: cs

/-- The leading-zero stripping loop of `DataStore::get_recreation_memos`
(datastore.rs lines 527–532): drop leading `0` bytes unless the next byte has
its top bit set. -/
def stripLeadingZeros : List Nat → List Nat
  | [] => []
  | a :: rest =>
    if a = 0 then
      match rest with
      | [] => []
      | b :: _ => if 128 ≤ b then a :: rest else stripLeadingZeros rest
    else a :: rest

/-- Minimal signed big-endian encoding of a natural number — the byte content
of the canonical CLVM integer atom, and the result of the memo fee pipeline. -/
def encNat (n : Nat) : List Nat := stripLeadingZeros (toSignedBytesBE n)

/-- Decoding a CLVM integer atom as an unsigned value (`u64` fields): the
empty atom is `0`; a set top bit means a negative number and is rejected. -/
def decAtomNat (bs : List Nat) : Except Unit Nat :=
  match bs with
  | [] => .ok 0
  | b :: _ => if 128 ≤ b then .error () else .ok (beVal bs)

/-- Minimal signed big-endian encoding of an arbitrary integer (used for the
constant opcodes `-24`, `-13`, `-10`, `-113` and for `51`). -/
def intToBytes (i : Int) : List Nat :=
  if 0 ≤ i then encNat i.toNat
  else
    let n := (-i).toNat
    let k := max 1 (natToBE (2 * n - 1)).length
    List.replicate (k - (natToBE (256 ^ k - n)).length) 0 ++ natToBE (256 ^ k - n)

/-- The CLVM integer atom for `i`. -/
def intAtom (i : Int) : Clvm := .atom (intToBytes i)

/-! ## Error taxonomy -/

/-- `clvm_traits::FromClvmError` (the kinds observed by the drivers). -/
inductive FromClvmError where
  | expectedAtom
  | expectedPair
  | wrongAtomLength (expected found : Nat)
  | custom
  deriving DecidableEq, Repr

/-- `DriverError` (§7 of the spec; `chia-sdk-driver`). -/
inductive DriverError where
  | toClvm
  | fromClvm (e : FromClvmError)
  | missingChild
  | missingMemo
  | invalidMemo
  | nonStandardLayer
  | vm
  deriving DecidableEq, Repr

/-! ## Generic CLVM field codecs -/

/-- Decode a `Bytes` field (any atom). -/
def decodeBytes : Clvm → Except FromClvmError Bytes
  | .atom bs => .ok (.raw bs)
  | .hashAtom h => .ok (.ofHash h)
  | _ => .error .expectedAtom

/-- Decode a `Vec<Bytes>` (proper CLVM list of atoms). -/
def decodeBytesList : Clvm → Except FromClvmError (List Bytes)
  | .atom [] => .ok []
  | .pair a rest =>
    match decodeBytes a with
    | .error e => .error e
    | .ok b =>
      match decodeBytesList rest with
      | .error e => .error e
      | .ok bs => .ok (b :: bs)
  | _ => .error .expectedPair

/-- Encode a `Vec<Bytes>` as a proper CLVM list. -/
def encodeBytesList (ms : List Bytes) : Clvm := Clvm.clist (ms.map Bytes.toClvm)

/-- Decode an `Option<Bytes32>` field: nil is `None`, a 32-byte atom is
`Some`. -/
def decodeOptB32 : Clvm → Except FromClvmError (Option Hash)
  | .atom [] => .ok none
  | .hashAtom h => .ok (some h)
  | .atom bs => .error (.wrongAtomLength 32 bs.length)
  | _ => .error .expectedAtom

/-- Encode an `Option<Bytes32>` field. -/
def encodeOptB32 : Option Hash → Clvm
  | none => .atom []
  | some h => .hashAtom h

/-! ## Typed conditions of `chia-sdk-types/src/condition/puzzles.rs`

Each struct derives `ToClvm`/`FromClvm` with `#[clvm(list)]` and
`#[apply_constants]`: the encoding is the proper list of the fields with the
constant fields fixed, and decoding checks the constants exactly. -/

/-- `RunTail<P, S>`: `(51 () -113 program solution)`. -/
structure RunTail where
  program : Clvm
  solution : Clvm
  deriving DecidableEq, Repr

def RunTail.toClvm (c : RunTail) : Clvm :=
  .clist [intAtom 51, .atom [], intAtom (-113), c.program, c.solution]

def decodeRunTail : Clvm → Except FromClvmError RunTail
  | .pair op (.pair ph (.pair amt (.pair p (.pair s (.atom []))))) =>
    if op = intAtom 51 ∧ ph = Clvm.atom [] ∧ amt = intAtom (-113) then
      .ok ⟨p, s⟩
    else .error .custom
  | _ => .error .expectedPair

/-- `MeltSingleton`: `(51 () -113)`. -/
def MeltSingleton.toClvm : Clvm := .clist [intAtom 51, .atom [], intAtom (-113)]

def decodeMeltSingleton : Clvm → Except FromClvmError Unit
  | .pair op (.pair ph (.pair amt (.atom []))) =>
    if op = intAtom 51 ∧ ph = Clvm.atom [] ∧ amt = intAtom (-113) then
      .ok ()
    else .error .custom
  | _ => .error .expectedPair

/-- `NftTradePrice`: `(trade_price puzzle_hash)`. -/
structure NftTradePrice where
  trade_price : Nat
  puzzle_hash : Hash
  deriving DecidableEq, Repr

def NftTradePrice.toClvm (t : NftTradePrice) : Clvm :=
  .clist [.atom (encNat t.trade_price), .hashAtom t.puzzle_hash]

def decodeTradePrice : Clvm → Except FromClvmError NftTradePrice
  | .pair (.atom tb) (.pair (.hashAtom ph) (.atom [])) =>
    match decAtomNat tb with
    | .ok t => .ok ⟨t, ph⟩
    | .error _ => .error .custom
  | _ => .error .expectedPair

def decodeTradePrices : Clvm → Except FromClvmError (List NftTradePrice)
  | .atom [] => .ok []
  | .pair a rest =>
    match decodeTradePrice a with
    | .error e => .error e
    | .ok t =>
      match decodeTradePrices rest with
      | .error e => .error e
      | .ok ts => .ok (t :: ts)
  | _ => .error .expectedPair

/-- `NewNftOwner` (the transfer-NFT condition):
`(-10 did_id trade_prices did_inner_puzzle_hash)`. -/
structure NewNftOwner where
  did_id : Option Hash
  trade_prices : List NftTradePrice
  did_inner_puzzle_hash : Option Hash
  deriving DecidableEq, Repr

def NewNftOwner.toClvm (c : NewNftOwner) : Clvm :=
  .clist [intAtom (-10), encodeOptB32 c.did_id,
    Clvm.clist (c.trade_prices.map NftTradePrice.toClvm),
    encodeOptB32 c.did_inner_puzzle_hash]

def decodeNewNftOwner : Clvm → Except FromClvmError NewNftOwner
  | .pair op (.pair did (.pair prices (.pair inner (.atom [])))) =>
    if op = intAtom (-10) then
      match decodeOptB32 did, decodeTradePrices prices, decodeOptB32 inner with
      | .ok d, .ok ts, .ok i => .ok ⟨d, ts, i⟩
      | .error e, _, _ => .error e
      | _, .error e, _ => .error e
      | _, _, .error e => .error e
    else .error .custom
  | _ => .error .expectedPair

/-- `NewMetadataCondition<P, S>`:
`(-24 metadata_updater_reveal metadata_updater_solution)`. -/
structure NewMetadataCondition where
  metadata_updater_reveal : Clvm
  metadata_updater_solution : Clvm
  deriving DecidableEq, Repr

def NewMetadataCondition.toClvm (c : NewMetadataCondition) : Clvm :=
  .clist [intAtom (-24), c.metadata_updater_reveal, c.metadata_updater_solution]

def decodeNewMetadataCondition : Clvm → Except FromClvmError NewMetadataCondition
  | .pair op (.pair p (.pair s (.atom []))) =>
    if op = intAtom (-24) then .ok ⟨p, s⟩ else .error .custom
  | _ => .error .expectedPair

/-- `NewMerkleRootCondition<M>`: `(-13 new_merkle_root . memos)` (the memo
vector is the `#[clvm(rest)]` tail of the list). -/
structure NewMerkleRootCondition where
  new_merkle_root : Hash
  memos : List Bytes
  deriving DecidableEq, Repr

def NewMerkleRootCondition.toClvm (c : NewMerkleRootCondition) : Clvm :=
  .pair (intAtom (-13)) (.pair (.hashAtom c.new_merkle_root) (encodeBytesList c.memos))

def decodeNewMerkleRootCondition : Clvm → Except FromClvmError NewMerkleRootCondition
  | .pair op (.pair root ms) =>
    if op = intAtom (-13) then
      match root with
      | .hashAtom r =>
        (match decodeBytesList ms with
         | .ok memos => .ok ⟨r, memos⟩
         | .error e => .error e)
      | .atom bs => .error (.wrongAtomLength 32 bs.length)
      | _ => .error .expectedAtom
    else .error .custom
  | _ => .error .expectedPair

/-! ## Secp256r1 signatures (`chia-sdk-types/src/secp/secp256r1_signature.rs`)

`Secp256r1Signature` wraps a 64-byte compact `p256` signature.  The external
`p256::ecdsa::Signature` type is modelled as the 64-byte strings themselves;
its scalar-validity check (`Signature::from_slice`) is an external concern and
is modelled as accepting (the claims proved below do not depend on it: they
only require that length-64 is necessary and that `to_bytes`/`from_slice`
round-trip on every signature). -/
abbrev Secp256r1Signature : Type := { bs : List Nat // bs.length = 64 }

/-- `Secp256r1Signature::to_clvm`: encode the 64 signature bytes as an atom. -/
def Secp256r1Signature.toClvm (s : Secp256r1Signature) : Clvm := .atom s.val

/-- `Secp256r1Signature::from_clvm` (secp256r1_signature.rs lines 29–44):
decode an atom, require exactly 64 bytes (`WrongAtomLength` with
`expected = 64` and `found` the actual length otherwise), then
`Signature::from_slice`. -/
def Secp256r1Signature.fromClvm : Clvm → Except FromClvmError Secp256r1Signature
  | .atom bs =>
    if h : bs.length = 64 then .ok ⟨bs, h⟩
    else .error (.wrongAtomLength 64 bs.length)
  | .hashAtom _ => .error (.wrongAtomLength 64 32)
  | _ => .error .expectedAtom

/-! ## The generic condition view (`chia_sdk_types::Condition`)

`DataStore::from_spend` only distinguishes `CreateCoin` from the `Other`
catch-all; every other variant behaves like `Other` there.  `Condition`
decoding is total: a node that is not a well-formed `CreateCoin` stays
`Other`. -/

/-- `CreateCoin`: `(51 puzzle_hash amount memos)`; the memo list may be
absent, defaulting to `[]`. -/
structure CreateCoin where
  puzzle_hash : Hash
  amount : Nat
  memos : List Bytes
  deriving DecidableEq, Repr

inductive Condition where
  | createCoin (c : CreateCoin)
  | other (v : Clvm)
  deriving DecidableEq, Repr

def CreateCoin.toClvm (c : CreateCoin) : Clvm :=
  .clist [intAtom 51, .hashAtom c.puzzle_hash, .atom (encNat c.amount),
    encodeBytesList c.memos]

def Condition.toClvm : Condition → Clvm
  | .createCoin c => c.toClvm
  | .other v => v

/-- Total decoding of a condition node: a `(51 ph amount [memos])` list with a
32-byte puzzle hash and an unsigned amount is `CreateCoin`; everything else is
retained as `Other`. -/
def decodeCondition (v : Clvm) : Condition :=
  match v with
  | .pair op (.pair (.hashAtom ph) (.pair (.atom ab) rest)) =>
    if op = intAtom 51 then
      match decAtomNat ab with
      | .error _ => .other v
      | .ok amount =>
        match rest with
        | .atom [] => .createCoin ⟨ph, amount, []⟩
        | .pair ms (.atom []) =>
          match decodeBytesList ms with
          | .ok memos => .createCoin ⟨ph, amount, memos⟩
          | .error _ => .other v
        | _ => .other v
    else .other v
  | _ => .other v

/-- A condition is canonical when its encoding decodes back to itself (always
true for `createCoin`; for `other v` it means `v` is not `CreateCoin`-shaped). -/
def Condition.canonical (c : Condition) : Prop :=
  decodeCondition c.toClvm = c

instance (c : Condition) : Decidable c.canonical := by
  unfold Condition.canonical; infer_instance

/-- Decode a proper CLVM list into conditions (`Vec::<Condition>::from_clvm`). -/
def decodeConditionList : Clvm → Except FromClvmError (List Condition)
  | .atom [] => .ok []
  | .pair a rest =>
    match decodeConditionList rest with
    | .error e => .error e
    | .ok cs => .ok (decodeCondition a :: cs)
  | _ => .error .expectedPair

def encodeConditionList (cs : List Condition) : Clvm :=
  Clvm.clist (cs.map Condition.toClvm)

/-- Decode a proper CLVM list into its raw elements (`Vec::<NodePtr>::from_clvm`). -/
def decodeRawList : Clvm → Except FromClvmError (List Clvm)
  | .atom [] => .ok []
  | .pair a rest =>
    match decodeRawList rest with
    | .error e => .error e
    | .ok l => .ok (a :: l)
  | _ => .error .expectedPair

def isOddCreateCoin : Condition → Bool
  | .createCoin c => c.amount % 2 = 1
  | _ => false

/-! ## Well-known module hashes -/

def SINGLETON_LAUNCHER_PUZZLE_HASH : Hash := .modH .singletonLauncher

def DELEGATION_LAYER_PUZZLE_HASH : Hash := .modH .delegationLayer

def DL_METADATA_UPDATER_PUZZLE_HASH : Hash := .modH .dlMetadataUpdater

def NFT_STATE_LAYER_PUZZLE_HASH : Hash := .modH .nftStateLayer

/-! ## Datastore metadata

The metadata type parameter `M` is instantiated with the root-hash-only
`DataStoreMetadata` (spec §3, scenario S1: `metadata = { root_hash }`), so
`M = Hash` and `root_hash()` is the identity.  Its CLVM form is the
one-element list `(root_hash)` — in particular it is pair-shaped, so decoding
an old-format launcher kv-list (a bare 32-byte atom in the metadata slot)
fails with `ExpectedPair`, which is what the documented legacy fallback
catches. -/

def encodeMeta (m : Hash) : Clvm := .clist [.hashAtom m]

def decodeMeta : Clvm → Except FromClvmError Hash
  | .pair (.hashAtom r) (.atom []) => .ok r
  | .pair _ _ => .error .custom
  | _ => .error .expectedPair

/-- `metadata.tree_hash()` for the root-hash-only metadata. -/
def metaTreeHash (m : Hash) : Hash := treeHash (encodeMeta m)

/-! ## Delegated puzzles and the Merkle set -/

/-- `DelegatedPuzzle`: `Admin(puzzle_hash) | Writer(inner_puzzle_hash) |
Oracle(oracle_puzzle_hash, oracle_fee)`. -/
inductive DelegatedPuzzle where
  | admin (puzzle_hash : Hash)
  | writer (inner_puzzle_hash : Hash)
  | oracle (oracle_puzzle_hash : Hash) (oracle_fee : Nat)
  deriving DecidableEq, Repr

/-- Modelled from the spec (§4.E, §4.D): the Merkle leaf of a delegated
puzzle is the full puzzle hash of the delegated puzzle — the admin hash
directly, and a tag-specific wrapper curry hash for writer and oracle. -/
def DelegatedPuzzle.leafHash : DelegatedPuzzle → Hash
  | .admin h => h
  | .writer h => .curryH (.modH .writerMod) (hlist [.h32 h])
  | .oracle ph fee => .curryH (.modH .oracleMod) (hlist [.h32 ph, .atomH (encNat fee)])

/-- Modelled from the spec (§4.E): one Merkle level — pair adjacent nodes,
duplicating the last on odd fan-in. -/
def merkleCombine : List Hash → List Hash
  | a :: b :: rest => .pairH a b :: merkleCombine rest
  | [a] => [.pairH a a]
  | [] => []

/-- Modelled from the spec (§4.E): fold levels to the root (fuel-bounded so
the kernel can evaluate it; one level at least halves the list, so
`xs.length` fuel suffices). -/
def merkleRootGo : Nat → List Hash → Hash
  | _, [] => .atomH []
  | _, [x] => x
  | 0, x :: _ => x
  | f + 1, xs => merkleRootGo f (merkleCombine xs)

/-- Modelled from the spec (§4.E): the Merkle root of the ordered
delegated-puzzle set (`get_merkle_tree(ctx, delegated_puzzles).root`). -/
def merkleRoot (dps : List DelegatedPuzzle) : Hash :=
  merkleRootGo dps.length (dps.map DelegatedPuzzle.leafHash)

/-- Modelled from the spec (§4.E): `MerkleTree::get_proof(leaf)` is `Some`
exactly when the leaf is in the tree.  No parser in scope inspects the proof
payload (from_spend decodes the delegation solution's proof slot as a raw
node), so the payload is modelled as an opaque atom. -/
def getProof (dps : List DelegatedPuzzle) (leaf : Hash) : Option Clvm :=
  if (dps.map DelegatedPuzzle.leafHash).contains leaf then some (.atom [1]) else none

/-! ## The datastore memo protocol -/

/-- Modelled from the spec: the `HintType` kind bytes for admin, writer and
oracle delegated puzzles.  The spec fixes them only as three distinct
one-byte tags; they are modelled as `0`, `1`, `2`. -/
def HintType.adminPuzzle : Nat := 0

def HintType.writerPuzzle : Nat := 1

def HintType.oraclePuzzle : Nat := 2

/-- The delegated-puzzle section of `DataStore::get_recreation_memos`
(datastore.rs lines 509–537): for each delegated puzzle push the kind byte,
the puzzle hash, and (for oracles) the stripped signed big-endian fee. -/
def recreationDpMemos : List DelegatedPuzzle → List Bytes
  | [] => []
  | .admin h :: rest =>
    .raw [HintType.adminPuzzle] :: .ofHash h :: recreationDpMemos rest
  | .writer h :: rest =>
    .raw [HintType.writerPuzzle] :: .ofHash h :: recreationDpMemos rest
  | .oracle ph fee :: rest =>
    .raw [HintType.oraclePuzzle] :: .ofHash ph ::
      .raw (stripLeadingZeros (toSignedBytesBE fee)) :: recreationDpMemos rest

/-- `DataStore::get_recreation_memos` (datastore.rs lines 501–540). -/
def get_recreation_memos (launcher_id : Hash) (owner_puzzle_hash : Hash)
    (delegated_puzzles : List DelegatedPuzzle) : List Bytes :=
  .ofHash launcher_id :: .ofHash owner_puzzle_hash ::
    recreationDpMemos delegated_puzzles

/-- Modelled from the spec (§3 memo protocol): the
`while memos.len() > 1 { DelegatedPuzzle::from_memos(&mut memos) }` loop of
`build_datastore`.  `from_memos` reads the kind byte, the 32-byte puzzle
hash, and for oracles the minimally-encoded signed fee; a malformed payload
is `InvalidMemo`, a truncated one `MissingMemo`.  The loop stops once at
most one memo remains (a trailing singleton memo is ignored). -/
def parseDpsLoop : List Bytes → Except DriverError (List DelegatedPuzzle)
  | [] => .ok []
  | [_] => .ok []
  | tag :: hm :: rest =>
    match tag with
    | .raw [t] =>
      if t = HintType.adminPuzzle then
        match hm.toBytes32? with
        | some h =>
          (match parseDpsLoop rest with
           | .ok dps => .ok (.admin h :: dps)
           | .error e => .error e)
        | none => .error .invalidMemo
      else if t = HintType.writerPuzzle then
        match hm.toBytes32? with
        | some h =>
          (match parseDpsLoop rest with
           | .ok dps => .ok (.writer h :: dps)
           | .error e => .error e)
        | none => .error .invalidMemo
      else if t = HintType.oraclePuzzle then
        match hm.toBytes32? with
        | some h =>
          (match rest with
           | [] => .error .missingMemo
           | fm :: rest2 =>
             match fm with
             | .raw fb =>
               (match decAtomNat fb with
                | .ok fee =>
                  (match parseDpsLoop rest2 with
                   | .ok dps => .ok (.oracle h fee :: dps)
                   | .error e => .error e)
                | .error _ => .error .invalidMemo)
             | .ofHash _ => .error .invalidMemo)
        | none => .error .invalidMemo
      else .error .invalidMemo
    | _ => .error .invalidMemo

/-! ## Layer constructors and parsers

The layer library (`SingletonLayer`, `NftStateLayer`, the delegation layer
and the `Layer` trait implementations) lives outside the given sources; the
constructions and parsers below are modelled from the spec (§4.C, §4.D):
currying shapes `(launcher_id, launcher_puzzle_hash, inner)` for the
singleton, `(mod_hash, metadata, metadata_updater_puzzle_hash, inner)` for
the state layer and `(mod_hash, launcher_id, owner_puzzle_hash, merkle_root)`
for the delegation layer; `parse_puzzle` returns `none` exactly when the node
is not a curried instance of the layer's module. -/

def Clvm.isCurried : Clvm → Bool
  | .curried .. => true
  | _ => false

/-- `Puzzle::mod_hash()`: the module hash of a curried puzzle, or the node's
own tree hash for a raw puzzle. -/
def Clvm.modHashOf : Clvm → Hash
  | .curried p _ => treeHash p
  | v => treeHash v

/-- `Puzzle::as_curried().args`. -/
def Clvm.curriedArgs? : Clvm → Option Clvm
  | .curried _ a => some a
  | _ => none

/-- Modelled from the spec: `SingletonLayer` construction. -/
def singletonPuzzle (launcher_id : Hash) (inner : Clvm) : Clvm :=
  .curried (.modP .singletonMod)
    (.clist [.hashAtom launcher_id, .hashAtom SINGLETON_LAUNCHER_PUZZLE_HASH, inner])

/-- `SingletonArgs::curry_tree_hash(launcher_id, inner_puzzle_hash)`. -/
def singletonCurryHash (launcher_id inner_ph : Hash) : Hash :=
  .curryH (.modH .singletonMod)
    (hlist [.h32 launcher_id, .h32 SINGLETON_LAUNCHER_PUZZLE_HASH, inner_ph])

/-- Parsed `SingletonLayer` (launcher id and inner puzzle handle). -/
structure SingletonLayerP where
  launcher_id : Hash
  inner_puzzle : Clvm
  deriving DecidableEq, Repr

/-- Modelled from the spec: `SingletonLayer::parse_puzzle` — `none` when the
node is not a curried instance of the singleton module (or the curried
launcher hash is not the launcher module's). -/
def singletonParsePuzzle (p : Clvm) : Except DriverError (Option SingletonLayerP) :=
  match p with
  | .curried prog args =>
    if treeHash prog = Hash.modH .singletonMod then
      match args with
      | .pair (.hashAtom lid) (.pair (.hashAtom lph) (.pair inner (.atom []))) =>
        if lph = SINGLETON_LAUNCHER_PUZZLE_HASH then .ok (some ⟨lid, inner⟩)
        else .ok none
      | _ => .error (.fromClvm .custom)
    else .ok none
  | _ => .ok none

/-- Modelled from the spec: `SingletonLayer::lineage_proof(coin)` — the proof
the child of `coin` will use. -/
def lineageProofOf (sl : SingletonLayerP) (coin : Coin) : Proof :=
  .lineage coin.parent_coin_info (treeHash sl.inner_puzzle) coin.amount

/-- Modelled from the spec: `NftStateLayer` construction. -/
def nftStatePuzzle (metaC : Clvm) (updater_ph : Hash) (inner : Clvm) : Clvm :=
  .curried (.modP .nftStateLayer)
    (.clist [.hashAtom NFT_STATE_LAYER_PUZZLE_HASH, metaC, .hashAtom updater_ph, inner])

/-- The curry tree hash of the state layer (the `CurriedProgram` hash computed
in `from_spend`, datastore.rs lines 375–387). -/
def nftStateCurryHash (metaH updater_ph inner_ph : Hash) : Hash :=
  .curryH (.modH .nftStateLayer)
    (hlist [.h32 NFT_STATE_LAYER_PUZZLE_HASH, metaH, .h32 updater_ph, inner_ph])

/-- Parsed `NftStateLayer`. -/
structure NftStateLayerP where
  metadata : Hash
  metadata_updater_puzzle_hash : Hash
  inner_puzzle : Clvm
  deriving DecidableEq, Repr

/-- Modelled from the spec: `NftStateLayer::parse_puzzle`. -/
def nftStateParsePuzzle (p : Clvm) : Except DriverError (Option NftStateLayerP) :=
  match p with
  | .curried prog args =>
    if treeHash prog = Hash.modH .nftStateLayer then
      match args with
      | .pair mh (.pair metaC (.pair (.hashAtom up) (.pair inner (.atom [])))) =>
        if mh = Clvm.hashAtom NFT_STATE_LAYER_PUZZLE_HASH then
          match decodeMeta metaC with
          | .ok m => .ok (some ⟨m, up, inner⟩)
          | .error e => .error (.fromClvm e)
        else .ok none
      | _ => .error (.fromClvm .custom)
    else .ok none
  | _ => .ok none

/-- Modelled from the spec: delegation-layer construction
(`into_layers_with_delegation_layer`). -/
def delegationPuzzle (launcher_id owner_puzzle_hash root : Hash) : Clvm :=
  .curried (.modP .delegationLayer)
    (.clist [.hashAtom DELEGATION_LAYER_PUZZLE_HASH, .hashAtom launcher_id,
      .hashAtom owner_puzzle_hash, .hashAtom root])

/-- `DelegationLayerArgs::curry_tree_hash(launcher_id, inner_ph, root)`. -/
def delegationCurryHash (launcher_id owner_puzzle_hash root : Hash) : Hash :=
  .curryH (.modH .delegationLayer)
    (hlist [.h32 DELEGATION_LAYER_PUZZLE_HASH, .h32 launcher_id,
      .h32 owner_puzzle_hash, .h32 root])

/-- `DelegationLayerArgs` (curried parameters of the delegation layer). -/
structure DelegationLayerArgs where
  mod_hash : Hash
  launcher_id : Hash
  owner_puzzle_hash : Hash
  merkle_root : Hash
  deriving DecidableEq, Repr

def decodeDelegationArgs : Clvm → Except FromClvmError DelegationLayerArgs
  | .pair (.hashAtom mh) (.pair (.hashAtom lid)
      (.pair (.hashAtom ow) (.pair (.hashAtom rt) (.atom [])))) =>
    .ok ⟨mh, lid, ow, rt⟩
  | _ => .error .custom

/-- `DelegationLayerSolution<P, S>`:
`(merkle_proof puzzle_reveal puzzle_solution)` (all slots decoded as raw
nodes by `from_spend`). -/
structure DelegationLayerSolution where
  merkle_proof : Clvm
  puzzle_reveal : Clvm
  puzzle_solution : Clvm
  deriving DecidableEq, Repr

def DelegationLayerSolution.toClvm (s : DelegationLayerSolution) : Clvm :=
  .clist [s.merkle_proof, s.puzzle_reveal, s.puzzle_solution]

def decodeDelegationSolution : Clvm → Except FromClvmError DelegationLayerSolution
  | .pair mp (.pair pr (.pair ps (.atom []))) => .ok ⟨mp, pr, ps⟩
  | _ => .error .expectedPair

/-- Encode an `Option<MerkleProof>` solution slot: `None` is nil, `Some` is
the bare payload. -/
def encodeOptClvm : Option Clvm → Clvm
  | none => .atom []
  | some v => v

/-! ## Singleton / state-layer solutions -/

def encodeProof : Proof → Clvm
  | .eve pp amt => .clist [.hashAtom pp, .atom (encNat amt)]
  | .lineage pp iph amt => .clist [.hashAtom pp, .hashAtom iph, .atom (encNat amt)]

def decodeProof : Clvm → Except FromClvmError Proof
  | .pair (.hashAtom pp) (.pair (.atom ab) (.atom [])) =>
    (match decAtomNat ab with
     | .ok amt => .ok (.eve pp amt)
     | .error _ => .error .custom)
  | .pair (.hashAtom pp) (.pair (.hashAtom iph) (.pair (.atom ab) (.atom []))) =>
    (match decAtomNat ab with
     | .ok amt => .ok (.lineage pp iph amt)
     | .error _ => .error .custom)
  | _ => .error .expectedPair

/-- `SingletonSolution { lineage_proof, amount, inner_solution:
NftStateLayerSolution { inner_solution } }` as constructed by
`DataStore::spend`: `(proof amount (state_inner_solution))`. -/
def encodeSingletonSolution (prf : Proof) (amount : Nat) (state_inner : Clvm) : Clvm :=
  .clist [encodeProof prf, .atom (encNat amount), .clist [state_inner]]

/-- `SingletonLayer::<NftStateLayer<M, Puzzle>>::parse_solution`, returning
the proof, the singleton amount and the state layer's inner solution. -/
def decodeSingletonSolution : Clvm → Except FromClvmError (Proof × Nat × Clvm)
  | .pair prfC (.pair (.atom ab) (.pair (.pair inner (.atom [])) (.atom []))) =>
    (match decodeProof prfC with
     | .error e => .error e
     | .ok prf =>
       match decAtomNat ab with
       | .ok amt => .ok (prf, amt, inner)
       | .error _ => .error .custom)
  | _ => .error .expectedPair

/-! ## The modelled script VM

The VM (`clvmr::run_program` via `chia_sdk_types::run_puzzle`) is an external
collaborator (spec §4.A).  The drivers in scope only ever re-execute two
program shapes: quoted condition lists (the standard inner spends used by the
tests and helpers) and the delegation layer.  Everything else is a VM error. -/

/-- Modelled from the spec: the delegation layer's condition morphing — a
`NewMerkleRoot` condition becomes the re-creation `CreateCoin` of the
delegation layer with the new root, carrying the condition's memos; every
other condition passes through. -/
def delegMapCond (launcher_id owner_puzzle_hash : Hash) (c : Condition) : Condition :=
  match c with
  | .other v =>
    (match decodeNewMerkleRootCondition v with
     | .ok nmr =>
       .createCoin
         ⟨delegationCurryHash launcher_id owner_puzzle_hash nmr.new_merkle_root,
           1, nmr.memos⟩
     | .error _ => c)
  | c => c

/-- Modelled from the spec (§4.D delegation layer, §4.F classification): run
the revealed inner puzzle, morph its conditions through `delegMapCond`, and
inject the layer's own re-creation `CreateCoin` when the output carries no
odd-amount `CreateCoin`.  Merkle/owner validity checks are consensus-side and
are not modelled (`from_spend` itself assumes the spend is valid). -/
def runDelegationLayer (selfHash : Hash) (args : DelegationLayerArgs)
    (sol : DelegationLayerSolution) : Except DriverError Clvm :=
  match sol.puzzle_reveal with
  | .quoted out =>
    match decodeConditionList out with
    | .error _ => .error .vm
    | .ok conds =>
      let conds2 :=
        conds.map (delegMapCond args.launcher_id args.owner_puzzle_hash)
      let out2 :=
        if conds2.any isOddCreateCoin then conds2
        else conds2 ++ [.createCoin ⟨selfHash, 1, []⟩]
      .ok (encodeConditionList out2)
  | _ => .error .vm

/-- Modelled from the spec (§4.A): `run_puzzle`. -/
def run_puzzle (p sol : Clvm) : Except DriverError Clvm :=
  match p with
  | .quoted v => .ok v
  | .curried prog args =>
    if treeHash prog = Hash.modH .delegationLayer then
      match decodeDelegationArgs args with
      | .error _ => .error .vm
      | .ok a =>
        match decodeDelegationSolution sol with
        | .error _ => .error .vm
        | .ok ds => runDelegationLayer (treeHash (Clvm.curried prog args)) a ds
    else .error .vm
  | _ => .error .vm

/-! ## The `DataStore` primitive -/

/-- `DataStoreInfo<M>` with the root-hash-only metadata. -/
structure DataStoreInfo where
  launcher_id : Hash
  metadata : Hash
  owner_puzzle_hash : Hash
  delegated_puzzles : List DelegatedPuzzle
  deriving DecidableEq, Repr

/-- `DataStore<M>`. -/
structure DataStore where
  coin : Coin
  proof : Proof
  info : DataStoreInfo
  deriving DecidableEq, Repr

/-- An inner spend (`Spend { puzzle, solution }`). -/
structure Spend where
  puzzle : Clvm
  solution : Clvm
  deriving DecidableEq, Repr

/-- The state-layer inner puzzle hash determined by a `DataStoreInfo`: the
owner puzzle hash when the delegated set is empty, the delegation layer's
curry hash otherwise (spec §3, §4.F). -/
def innerPhOfInfo (i : DataStoreInfo) : Hash :=
  if i.delegated_puzzles.isEmpty then i.owner_puzzle_hash
  else delegationCurryHash i.launcher_id i.owner_puzzle_hash (merkleRoot i.delegated_puzzles)

/-- `DataStoreInfo::inner_puzzle_hash`: the full puzzle hash under the
singleton wrapper. -/
def DataStoreInfo.inner_puzzle_hash (i : DataStoreInfo) : Hash :=
  nftStateCurryHash (metaTreeHash i.metadata) DL_METADATA_UPDATER_PUZZLE_HASH
    (innerPhOfInfo i)

/-- The tree hash of the full puzzle stack constructed from a
`DataStoreInfo` (spec §4.F, `into_layers_*` followed by `construct_puzzle`). -/
def infoPuzzleHash (i : DataStoreInfo) : Hash :=
  singletonCurryHash i.launcher_id i.inner_puzzle_hash

/-- `DataStore::spend` (datastore.rs lines 44–96): empty delegated set curries
`Singleton · NftState · inner`, with the caller's solution in the state
layer's inner slot; a non-empty set curries
`Singleton · NftState · Delegation` and wraps the caller's spend in a
`DelegationLayerSolution` whose Merkle proof is `tree.get_proof` of the inner
puzzle's tree hash. -/
def DataStore.spend (d : DataStore) (inner_spend : Spend) : CoinSpend :=
  if d.info.delegated_puzzles.isEmpty then
    let puzzle := singletonPuzzle d.info.launcher_id
      (nftStatePuzzle (encodeMeta d.info.metadata) DL_METADATA_UPDATER_PUZZLE_HASH
        inner_spend.puzzle)
    let solution := encodeSingletonSolution d.proof d.coin.amount inner_spend.solution
    ⟨d.coin, puzzle, solution⟩
  else
    let delegPz := delegationPuzzle d.info.launcher_id d.info.owner_puzzle_hash
      (merkleRoot d.info.delegated_puzzles)
    let puzzle := singletonPuzzle d.info.launcher_id
      (nftStatePuzzle (encodeMeta d.info.metadata) DL_METADATA_UPDATER_PUZZLE_HASH delegPz)
    let dsol : DelegationLayerSolution :=
      ⟨encodeOptClvm (getProof d.info.delegated_puzzles (treeHash inner_spend.puzzle)),
        inner_spend.puzzle, inner_spend.solution⟩
    let solution := encodeSingletonSolution d.proof d.coin.amount dsol.toClvm
    ⟨d.coin, puzzle, solution⟩

/-- `DataStore::child_lineage_proof` (datastore.rs lines 99–108). -/
def DataStore.child_lineage_proof (d : DataStore) : LineageProof :=
  ⟨d.coin.parent_coin_info, d.info.inner_puzzle_hash, d.coin.amount⟩

/-- The owner-drain-plus-loop tail of `build_datastore` (datastore.rs lines
197–214): with no memos left the owner is the fallback; otherwise the first
memo is the owner hash (`InvalidMemo` unless 32 bytes) and the rest feed the
delegated-puzzle loop. -/
def buildTail (coin : Coin) (launcher_id : Hash) (proof : Proof) (metadata : Hash)
    (fallback_owner_ph : Hash) : List Bytes → Except DriverError DataStore
  | [] => .ok ⟨coin, proof, ⟨launcher_id, metadata, fallback_owner_ph, []⟩⟩
  | m :: ms =>
    match m.toBytes32? with
    | none => .error .invalidMemo
    | some owner =>
      match parseDpsLoop ms with
      | .error e => .error e
      | .ok dps => .ok ⟨coin, proof, ⟨launcher_id, metadata, owner, dps⟩⟩

/-- `DataStore::build_datastore` (datastore.rs lines 149–226): no memos means
the fallback owner and no delegation layer; otherwise the first memo must be
the launcher id (`InvalidMemo`); exactly two remaining memos whose first is
the metadata root hash is the legacy vanilla store; otherwise the owner hash
and the delegated-puzzle list are decoded from the remaining memos. -/
def build_datastore (coin : Coin) (launcher_id : Hash) (proof : Proof)
    (metadata : Hash) (fallback_owner_ph : Hash) (memos : List Bytes) :
    Except DriverError DataStore :=
  match memos with
  | [] => .ok ⟨coin, proof, ⟨launcher_id, metadata, fallback_owner_ph, []⟩⟩
  | m0 :: rest =>
    if m0 = Bytes.ofHash launcher_id then
      match rest with
      | [a, b] =>
        if a = Bytes.ofHash metadata then
          -- vanilla store using the old memo format
          match b.toBytes32? with
          | some owner => .ok ⟨coin, proof, ⟨launcher_id, metadata, owner, []⟩⟩
          | none => .error .invalidMemo
        else buildTail coin launcher_id proof metadata fallback_owner_ph [a, b]
      | other => buildTail coin launcher_id proof metadata fallback_owner_ph other
    else .error .invalidMemo

/-! ## Launcher solution decoding -/

/-- `DLLauncherKVList<M, Bytes>`: `(metadata state_layer_inner_puzzle_hash . memos)`. -/
structure DLLauncherKVList where
  metadata : Hash
  state_layer_inner_puzzle_hash : Hash
  memos : List Bytes
  deriving DecidableEq, Repr

/-- `OldDLLauncherKVList<Bytes>`: `(root_hash state_layer_inner_puzzle_hash . memos)`. -/
structure OldDLLauncherKVList where
  root_hash : Hash
  state_layer_inner_puzzle_hash : Hash
  memos : List Bytes
  deriving DecidableEq, Repr

/-- `LauncherSolution<T>`: `(singleton_puzzle_hash amount key_value_list)`. -/
structure LauncherSolution (T : Type) where
  singleton_puzzle_hash : Hash
  amount : Nat
  key_value_list : T
  deriving DecidableEq, Repr

/-- Decode a `Bytes32` field. -/
def decodeB32 : Clvm → Except FromClvmError Hash
  | .hashAtom h => .ok h
  | .atom bs => .error (.wrongAtomLength 32 bs.length)
  | _ => .error .expectedAtom

/-- Decode a `u64` field. -/
def decodeU64 : Clvm → Except FromClvmError Nat
  | .atom bs =>
    (match decAtomNat bs with
     | .ok n => .ok n
     | .error _ => .error .custom)
  | .hashAtom _ => .error .custom
  | _ => .error .expectedAtom

/-- Decode the modern kv-list; the fields are decoded left-to-right, so an
old-format list (a bare 32-byte atom in the metadata slot) fails with
`ExpectedPair` from the metadata decoder. -/
def decodeKVModern : Clvm → Except FromClvmError DLLauncherKVList
  | .pair metaC rest =>
    (match decodeMeta metaC with
     | .error e => .error e
     | .ok m =>
       match rest with
       | .pair st ms =>
         (match decodeB32 st with
          | .error e => .error e
          | .ok sth =>
            match decodeBytesList ms with
            | .error e => .error e
            | .ok memos => .ok ⟨m, sth, memos⟩)
       | _ => .error .expectedPair)
  | _ => .error .expectedPair

/-- Decode the legacy kv-list. -/
def decodeKVOld : Clvm → Except FromClvmError OldDLLauncherKVList
  | .pair rootC rest =>
    (match decodeB32 rootC with
     | .error e => .error e
     | .ok r =>
       match rest with
       | .pair st ms =>
         (match decodeB32 st with
          | .error e => .error e
          | .ok sth =>
            match decodeBytesList ms with
            | .error e => .error e
            | .ok memos => .ok ⟨r, sth, memos⟩)
       | _ => .error .expectedPair)
  | _ => .error .expectedPair

/-- Decode a `LauncherSolution` with the given kv-list decoder. -/
def decodeLauncherWith {T : Type} (kv : Clvm → Except FromClvmError T) :
    Clvm → Except FromClvmError (LauncherSolution T)
  | .pair phC rest1 =>
    (match decodeB32 phC with
     | .error e => .error e
     | .ok ph =>
       match rest1 with
       | .pair amtC rest2 =>
         (match decodeU64 amtC with
          | .error e => .error e
          | .ok amt =>
            match rest2 with
            | .pair kvC term =>
              (match kv kvC with
               | .error e => .error e
               | .ok k =>
                 match term with
                 | .atom [] => .ok ⟨ph, amt, k⟩
                 | _ => .error .expectedPair)
            | _ => .error .expectedPair)
       | _ => .error .expectedPair)
  | _ => .error .expectedPair

def decodeLauncherModern : Clvm → Except FromClvmError (LauncherSolution DLLauncherKVList) :=
  decodeLauncherWith decodeKVModern

def decodeLauncherOld : Clvm → Except FromClvmError (LauncherSolution OldDLLauncherKVList) :=
  decodeLauncherWith decodeKVOld

/-- Modelled from the spec (§4.D): `NftStateLayer::get_next_metadata` with the
datastore metadata updater, which "returns its solution": the new metadata is
read directly from the condition's updater-solution payload
`((new_metadata new_metadata_updater_puzhash) conditions)`. -/
def get_next_metadata (_metadata _updater_ph : Hash) (cond : NewMetadataCondition) :
    Except DriverError Hash :=
  match cond.metadata_updater_solution with
  | .pair (.pair metaC (.pair (.hashAtom _) (.atom []))) _ =>
    (match decodeMeta metaC with
     | .ok m => .ok m
     | .error e => .error (.fromClvm e))
  | _ => .error (.fromClvm .custom)

/-- One step of the condition scan of `from_spend` (datastore.rs lines
341–355): an odd-amount `CreateCoin` replaces the first slot, an `Other`
condition that decodes as a `NewMetadataCondition` replaces the second. -/
def scanStep (acc : Option CreateCoin × Option NewMetadataCondition)
    (c : Condition) : Option CreateCoin × Option NewMetadataCondition :=
  match c with
  | .createCoin cc => if cc.amount % 2 = 1 then (some cc, acc.2) else acc
  | .other v =>
    match decodeNewMetadataCondition v with
    | .ok nm => (acc.1, some nm)
    | .error _ => acc

/-- The condition scan of `from_spend` (datastore.rs lines 338–355): the last
odd-amount `CreateCoin`, and the last `Other` condition that decodes as a
`NewMetadataCondition`. -/
def scanConditions (conds : List Condition) :
    Option CreateCoin × Option NewMetadataCondition :=
  conds.foldl scanStep (none, none)

/-- The odd-amount `CreateCoin` payload of a condition, if any. -/
def oddCC? : Condition → Option CreateCoin
  | .createCoin c => if c.amount % 2 = 1 then some c else none
  | .other _ => none

/-- The last odd-amount `CreateCoin` of a condition list. -/
def lastOdd : List Condition → Option CreateCoin
  | [] => none
  | c :: cs =>
    match lastOdd cs with
    | some cc => some cc
    | none => oddCC? c

/-- `DataStore::from_spend` (datastore.rs lines 228–497). -/
def DataStore.from_spend (cs : CoinSpend)
    (parent_delegated_puzzles : List DelegatedPuzzle) :
    Except DriverError (Option DataStore) :=
  if cs.coin.puzzle_hash = SINGLETON_LAUNCHER_PUZZLE_HASH then
    -- we're just launching this singleton
    let launcher_id := cs.coin.coinId
    let proof := Proof.eve cs.coin.parent_coin_info cs.coin.amount
    match decodeLauncherModern cs.solution with
    | .ok sol =>
      let new_coin : Coin := ⟨launcher_id, sol.singleton_puzzle_hash, sol.amount⟩
      (match build_datastore new_coin launcher_id proof sol.key_value_list.metadata
          sol.key_value_list.state_layer_inner_puzzle_hash
          (.ofHash launcher_id :: sol.key_value_list.memos) with
       | .ok d => .ok (some d)
       | .error e => .error e)
    | .error e =>
      match e with
      | .expectedPair =>
        -- datastore launched using the old memo format
        (match decodeLauncherOld cs.solution with
         | .error e2 => .error (.fromClvm e2)
         | .ok sol =>
           let coin : Coin := ⟨launcher_id, sol.singleton_puzzle_hash, sol.amount⟩
           match build_datastore coin launcher_id proof sol.key_value_list.root_hash
               sol.key_value_list.state_layer_inner_puzzle_hash
               sol.key_value_list.memos with
           | .ok d => .ok (some d)
           | .error e3 => .error e3)
      | _ => .error (.fromClvm e)
  else
    match singletonParsePuzzle cs.puzzle_reveal with
    | .error e => .error e
    | .ok none => .ok none
    | .ok (some singleton_layer) =>
      match nftStateParsePuzzle singleton_layer.inner_puzzle with
      | .error e => .error e
      | .ok none => .ok none
      | .ok (some state_layer) =>
        match decodeSingletonSolution cs.solution with
        | .error e => .error (.fromClvm e)
        | .ok (_, _, inner_solution) =>
          match run_puzzle state_layer.inner_puzzle inner_solution with
          | .error e => .error e
          | .ok inner_output =>
            match decodeConditionList inner_output with
            | .error e => .error (.fromClvm e)
            | .ok inner_conditions =>
              match (scanConditions inner_conditions).1 with
              | none => .error .missingChild
              | some cc =>
                match (match (scanConditions inner_conditions).2 with
                  | some nm =>
                    get_next_metadata state_layer.metadata
                      state_layer.metadata_updater_puzzle_hash nm
                  | none => .ok state_layer.metadata) with
                | .error e => .error e
                | .ok new_metadata =>
                  let new_puzzle_hash := singletonCurryHash singleton_layer.launcher_id
                    (nftStateCurryHash (metaTreeHash new_metadata)
                      state_layer.metadata_updater_puzzle_hash cc.puzzle_hash)
                  let new_coin : Coin := ⟨cs.coin.coinId, new_puzzle_hash, cc.amount⟩
                  if 1 < cc.memos.length then
                    -- recreated with memos: rebuild the delegated set from them
                    match build_datastore new_coin singleton_layer.launcher_id
                        (lineageProofOf singleton_layer cs.coin) new_metadata
                        (treeHash state_layer.inner_puzzle) cc.memos with
                    | .ok d => .ok (some d)
                    | .error e => .error e
                  else
                    if state_layer.inner_puzzle.isCurried ∧
                        state_layer.inner_puzzle.modHashOf = DELEGATION_LAYER_PUZZLE_HASH then
                      match state_layer.inner_puzzle.curriedArgs? with
                      | none => .error .nonStandardLayer
                      | some argsC =>
                        match decodeDelegationArgs argsC with
                        | .error e => .error (.fromClvm e)
                        | .ok deleg_args =>
                          match decodeDelegationSolution inner_solution with
                          | .error e => .error (.fromClvm e)
                          | .ok dsol =>
                            match run_puzzle dsol.puzzle_reveal dsol.puzzle_solution with
                            | .error e => .error e
                            | .ok output =>
                              match decodeRawList output with
                              | .error e => .error (.fromClvm e)
                              | .ok nodes =>
                                match (nodes.map decodeCondition).find? isOddCreateCoin with
                                | none =>
                                  -- the delegation layer itself injected the recreation
                                  .ok (some ⟨new_coin,
                                    lineageProofOf singleton_layer cs.coin,
                                    ⟨singleton_layer.launcher_id, new_metadata,
                                      deleg_args.owner_puzzle_hash,
                                      parent_delegated_puzzles⟩⟩)
                                | some (.createCoin create_coin) =>
                                  if create_coin.puzzle_hash =
                                      treeHash state_layer.inner_puzzle then
                                    -- re-creating the delegation layer with the same options
                                    .ok (some ⟨new_coin,
                                      lineageProofOf singleton_layer cs.coin,
                                      ⟨singleton_layer.launcher_id, new_metadata,
                                        deleg_args.owner_puzzle_hash,
                                        parent_delegated_puzzles⟩⟩)
                                  else
                                    -- the owner is exiting the delegation layer
                                    .ok (some ⟨new_coin,
                                      lineageProofOf singleton_layer cs.coin,
                                      ⟨singleton_layer.launcher_id, new_metadata,
                                        create_coin.puzzle_hash, []⟩⟩)
                                | some (.other _) =>
                                  -- unreachable by the find predicate; falls through
                                  .ok (some ⟨new_coin,
                                    lineageProofOf singleton_layer cs.coin,
                                    ⟨singleton_layer.launcher_id, new_metadata,
                                      deleg_args.owner_puzzle_hash, []⟩⟩)
                    else
                      -- no delegation layer
                      .ok (some ⟨new_coin, lineageProofOf singleton_layer cs.coin,
                        ⟨singleton_layer.launcher_id, new_metadata,
                          treeHash state_layer.inner_puzzle, []⟩⟩)

/-- `DataStore::owner_create_coin_condition` (datastore.rs lines 545–577). -/
def DataStore.owner_create_coin_condition (launcher_id new_inner_puzzle_hash : Hash)
    (new_delegated_puzzles : List DelegatedPuzzle)
    (hint_delegated_puzzles : Bool) : Condition :=
  let new_puzzle_hash :=
    if new_delegated_puzzles.isEmpty then new_inner_puzzle_hash
    else delegationCurryHash launcher_id new_inner_puzzle_hash
      (merkleRoot new_delegated_puzzles)
  .createCoin ⟨new_puzzle_hash, 1,
    if hint_delegated_puzzles then
      get_recreation_memos launcher_id new_inner_puzzle_hash new_delegated_puzzles
    else [.ofHash launcher_id]⟩

/-- `DataStore::new_metadata_condition` (datastore.rs lines 579–600): a
`NewMetadataCondition` whose updater reveal is the constant program `11` and
whose updater solution is the `NewMetadataOutput` carrying the new metadata
and the DL updater hash. -/
def DataStore.new_metadata_condition (new_metadata : Hash) : Condition :=
  .other (NewMetadataCondition.toClvm
    ⟨.atom (encNat 11),
      Clvm.clist [Clvm.clist [encodeMeta new_metadata,
        .hashAtom DL_METADATA_UPDATER_PUZZLE_HASH], .atom []]⟩)

/-! ## The `CAT` primitive (cat.rs) -/

/-- `CAT { coin, asset_id, p2_puzzle_hash, p2_puzzle }`. -/
structure CAT where
  coin : Coin
  asset_id : Hash
  p2_puzzle_hash : Hash
  p2_puzzle : Option Clvm
  deriving DecidableEq, Repr

/-- `TransparentLayer { puzzle_hash, puzzle }` (the innermost p2 layer). -/
structure TransparentLayerP where
  puzzle_hash : Hash
  puzzle : Option Clvm
  deriving DecidableEq, Repr

/-- Parsed `CATLayer<TransparentLayer>`. -/
structure CATLayerP where
  asset_id : Hash
  inner_puzzle : TransparentLayerP
  deriving DecidableEq, Repr

/-- Modelled from the spec (§4.D): the CAT layer curries
`(mod_hash, tail_program_hash, inner)` with `asset_id` the tail hash. -/
def catPuzzle (asset_id : Hash) (inner : Clvm) : Clvm :=
  .curried (.modP .catMod)
    (.clist [.hashAtom (.modH .catMod), .hashAtom asset_id, inner])

def catCurryHash (asset_id inner_ph : Hash) : Hash :=
  .curryH (.modH .catMod) (hlist [.h32 (.modH .catMod), .h32 asset_id, inner_ph])

/-- `CATLayer::tree_hash()` of a parsed layer stack. -/
def CATLayerP.stackHash (l : CATLayerP) : Hash :=
  catCurryHash l.asset_id l.inner_puzzle.puzzle_hash

/-- Modelled from the spec: `CATLayer::<TransparentLayer>::from_parent_spend`
parses the parent's puzzle reveal as the CAT layer over a transparent p2; the
transparent layer keeps the parent's revealed inner puzzle (and its hash)
unchanged. -/
def catLayerFromParentSpend (puzzle : Clvm) (_solution : Clvm) :
    Except DriverError (Option CATLayerP) :=
  match puzzle with
  | .curried prog args =>
    if treeHash prog = Hash.modH .catMod then
      match args with
      | .pair (.hashAtom mh) (.pair (.hashAtom tail) (.pair inner (.atom []))) =>
        if mh = Hash.modH .catMod then
          .ok (some ⟨tail, ⟨treeHash inner, some inner⟩⟩)
        else .ok none
      | _ => .error (.fromClvm .custom)
    else .ok none
  | _ => .ok none

/-- The child-coin view recovered by `CAT::from_parent_spend`.  The source
builds `Coin::new(cs.coin.coin_id(), res.tree_hash().into(), todo)` — the
amount slot is the unbound placeholder identifier `todo` (cat.rs line 64), so
no amount value is derived; the slot is modelled as `Option Nat` and the
placeholder as `none`. -/
structure CatChild where
  coin_parent_coin_info : Hash
  coin_puzzle_hash : Hash
  coin_amount : Option Nat
  asset_id : Hash
  p2_puzzle_hash : Hash
  p2_puzzle : Option Clvm
  deriving DecidableEq, Repr

/-- `CAT::from_parent_spend` (cat.rs lines 45–70). -/
def CAT.from_parent_spend (cs : CoinSpend) : Except DriverError (Option CatChild) :=
  match catLayerFromParentSpend cs.puzzle_reveal cs.solution with
  | .error e => .error e
  | .ok none => .ok none
  | .ok (some res) =>
    .ok (some ⟨cs.coin.coinId, res.stackHash, none, res.asset_id,
      res.inner_puzzle.puzzle_hash, res.inner_puzzle.puzzle⟩)

/-- `CAT::get_layered_object` (cat.rs lines 90–101). -/
def CAT.get_layered_object (c : CAT) (p2_puzzle : Option Clvm) : CATLayerP :=
  ⟨c.asset_id,
    ⟨c.p2_puzzle_hash,
      match c.p2_puzzle with
      | some p => some p
      | none => p2_puzzle⟩⟩

/-- Modelled from the spec (§4.D): `CATLayer::lineage_proof_for_child` — the
child's lineage proof `{ parent_parent, tree_hash(inner), parent_amount }`;
the two coin-derived fields are the function's arguments at its single call
site (`cat.rs` line 131). -/
def catLineageProofForChild (l : CATLayerP)
    (parent_parent_coin_info : Hash) (parent_amount : Nat) : LineageProof :=
  ⟨parent_parent_coin_info, l.inner_puzzle.puzzle_hash, parent_amount⟩

/-- `CatSolution { lineage_proof, inner_puzzle_solution, prev_coin_id }` as
constructed by `CAT::spend`. -/
def encodeCatSolution (lineage : Proof) (inner_sol : Clvm) (prev_coin_id : Hash) : Clvm :=
  .clist [encodeProof lineage, inner_sol, .hashAtom prev_coin_id]

/-- `CAT::spend` (cat.rs lines 103–137): construct the layered puzzle and
solution, emit the `CoinSpend`, re-parse it through `from_parent_spend`
(`MissingChild` if that fails), and return the child lineage proof — whose
amount argument is the literal `1` at the call site. -/
def CAT.spend (c : CAT) (lineage_proof : Proof) (inner_spend : Spend) :
    Except DriverError (CoinSpend × CatChild × Proof) :=
  let thing := c.get_layered_object (some inner_spend.puzzle)
  match thing.inner_puzzle.puzzle with
  | none => .error (.fromClvm .custom)
  | some innerPz =>
    let puzzle := catPuzzle thing.asset_id innerPz
    let solution := encodeCatSolution lineage_proof inner_spend.solution c.coin.coinId
    let cs : CoinSpend := ⟨c.coin, puzzle, solution⟩
    let lp := catLineageProofForChild thing c.coin.parent_coin_info 1
    match CAT.from_parent_spend cs with
    | .error e => .error e
    | .ok none => .error .missingChild
    | .ok (some child) =>
      .ok (cs, child,
        .lineage lp.parent_parent_coin_info lp.parent_inner_puzzle_hash lp.parent_amount)

def exceptIsErr {ε α : Type} : Except ε α → Bool
  | .error _ => true
  | .ok _ => false

def plainCond (c : Condition) : Bool :=
  match c with
  | .createCoin _ => true
  | .other v =>
    exceptIsErr (decodeNewMerkleRootCondition v) &&
      exceptIsErr (decodeNewMetadataCondition v)

def validRecreationConds (launcher_id new_owner : Hash)
    (new_dps : List DelegatedPuzzle) (new_metadata : Option Hash) : List Condition :=
  (match new_metadata with
   | some nm => [DataStore.new_metadata_condition nm]
   | none => []) ++
  [DataStore.owner_create_coin_condition launcher_id new_owner new_dps true]

/-- The delegation layer's full condition output for a quoted reveal (spec
§4.D): the revealed conditions morphed through `delegMapCond`, with the
layer's own re-creation `CreateCoin` appended when the morphed output has no
odd-amount `CreateCoin` (the body of `runDelegationLayer`, named so that the
scan of the layer's output can be stated). -/
def delegOutput (launcher_id owner_puzzle_hash selfHash : Hash)
    (conds : List Condition) : List Condition :=
  let conds2 := conds.map (delegMapCond launcher_id owner_puzzle_hash)
  if conds2.any isOddCreateCoin then conds2
  else conds2 ++ [.createCoin ⟨selfHash, 1, []⟩]

/-! ## Theorems -/

theorem treeHash_clist (vs : List Clvm) :
    treeHash (Clvm.clist vs) = hlist (vs.map treeHash) := by
  induction vs with
  | nil => rfl
  | cons v vs ih => simp [Clvm.clist, hlist, treeHash, ih]

theorem natToBEGo_eq (f : Nat) : ∀ n acc, n ≤ f →
    natToBEGo f n acc = (Nat.digits 256 n).reverse ++ acc := by
  induction f with
  | zero =>
    intro n acc h
    have : n = 0 := Nat.le_zero.mp h
    subst this
    simp [natToBEGo]
  | succ f ih =>
    intro n acc h
    match n with
    | 0 => simp [natToBEGo]
    | n + 1 =>
      have hq : (n + 1) / 256 ≤ f := by
        have := Nat.div_lt_self (Nat.succ_pos n) (by norm_num : 1 < 256)
        omega
      rw [natToBEGo, ih _ _ hq,
        Nat.digits_def' (by norm_num : 1 < 256) (Nat.succ_pos n)]
      simp

theorem natToBE_eq (n : Nat) : natToBE n = (Nat.digits 256 n).reverse := by
  simpa using natToBEGo_eq n n [] le_rfl

theorem beVal_go (l : List Nat) : ∀ a : Nat,
    l.foldl (fun a b => a * 256 + b) a = a * 256 ^ l.length + beVal l := by
  induction l with
  | nil => intro a; simp [beVal]
  | cons b l ih =>
    intro a
    simp only [List.foldl_cons, List.length_cons, beVal]
    rw [ih (a * 256 + b), ih (0 * 256 + b)]
    simp only [beVal]
    ring

theorem beVal_reverse_eq_ofDigits (l : List Nat) :
    beVal l.reverse = Nat.ofDigits 256 l := by
  induction l with
  | nil => simp [beVal, Nat.ofDigits]
  | cons d l ih =>
    simp only [List.reverse_cons, Nat.ofDigits_cons]
    unfold beVal
    rw [List.foldl_append, ← beVal, beVal_go, ih]
    simp [beVal]
    ring

theorem beVal_natToBE (n : Nat) : beVal (natToBE n) = n := by
  rw [natToBE_eq, beVal_reverse_eq_ofDigits, Nat.ofDigits_digits]

theorem natToBE_exists_head (n : Nat) (hn : n ≠ 0) :
    ∃ c cs, natToBE n = c :: cs ∧ c ≠ 0 ∧ c < 256 := by
  rw [natToBE_eq]
  have hne : Nat.digits 256 n ≠ [] := Nat.digits_ne_nil_iff_ne_zero.mpr hn
  obtain ⟨c, cs, heq⟩ : ∃ c cs, (Nat.digits 256 n).reverse = c :: cs := by
    cases hrev : (Nat.digits 256 n).reverse with
    | nil => exact absurd (by simpa using congrArg List.reverse hrev) hne
    | cons c cs => exact ⟨c, cs, rfl⟩
  refine ⟨c, cs, heq, ?_, ?_⟩
  · have hlast : (Nat.digits 256 n).getLast hne ≠ 0 :=
      Nat.getLast_digit_ne_zero 256 hn
    have : (Nat.digits 256 n).getLast hne = c := by
      have h2 : Nat.digits 256 n = (c :: cs).reverse := by
        simpa using congrArg List.reverse heq
      simp only [h2, List.reverse_cons]
      exact List.getLast_append_singleton cs.reverse ..
    omega
  · have hc : c ∈ Nat.digits 256 n := by
      have : c ∈ (Nat.digits 256 n).reverse := by rw [heq]; exact List.mem_cons_self ..
      simpa using this
    exact Nat.digits_lt_base (by norm_num) hc

theorem encNat_eq (n : Nat) :
    encNat n = match natToBE n with
      | [] => []
      | c :: cs => if 128 ≤ c then 0 :: c :: cs else c :: cs := by
  unfold encNat toSignedBytesBE
  match hbe : natToBE n with
  | [] => simp [stripLeadingZeros]
  | c :: cs =>
    obtain ⟨c', cs', h1, h2, _⟩ := natToBE_exists_head n (by
      intro h0; rw [h0] at hbe; simp [natToBE, natToBEGo] at hbe)
    rw [hbe] at h1
    injection h1 with h3 h4
    subst h3
    subst h4
    by_cases hc : 128 ≤ c
    · simp [hc, stripLeadingZeros]
    · simp [hc, stripLeadingZeros, h2]

theorem beVal_cons_zero (l : List Nat) : beVal (0 :: l) = beVal l := by
  simp [beVal]

/-- Round trip: the canonical unsigned encoding decodes to itself. -/
theorem decAtomNat_encNat (n : Nat) : decAtomNat (encNat n) = .ok n := by
  rw [encNat_eq]
  match hbe : natToBE n with
  | [] =>
    have : n = 0 := by
      have := beVal_natToBE n
      rw [hbe] at this
      simpa [beVal] using this.symm
    simp [decAtomNat, this]
  | c :: cs =>
    have hval : beVal (c :: cs) = n := by rw [← hbe]; exact beVal_natToBE n
    by_cases hc : 128 ≤ c
    · simp [hc, decAtomNat, beVal_cons_zero, hval]
    · simp [hc, decAtomNat, hval]

theorem decodeBytes_toClvm (b : Bytes) : decodeBytes b.toClvm = .ok b := by
  cases b <;> rfl

theorem decodeBytesList_encodeBytesList (ms : List Bytes) :
    decodeBytesList (encodeBytesList ms) = .ok ms := by
  induction ms with
  | nil => rfl
  | cons m ms ih =>
    have ih' : decodeBytesList (Clvm.clist (ms.map Bytes.toClvm)) = .ok ms := ih
    cases m with
    | ofHash h =>
      simp only [encodeBytesList, List.map_cons, Clvm.clist, decodeBytesList,
        Bytes.toClvm, decodeBytes, ih']
    | raw bs =>
      simp only [encodeBytesList, List.map_cons, Clvm.clist, decodeBytesList,
        Bytes.toClvm, decodeBytes, ih']

theorem decodeOptB32_encodeOptB32 (o : Option Hash) :
    decodeOptB32 (encodeOptB32 o) = .ok o := by
  cases o <;> rfl

theorem decodeTradePrices_enc (ts : List NftTradePrice) :
    decodeTradePrices (Clvm.clist (ts.map NftTradePrice.toClvm)) = .ok ts := by
  induction ts with
  | nil => rfl
  | cons t ts ih =>
    simp only [List.map_cons, Clvm.clist, decodeTradePrices, NftTradePrice.toClvm]
    rw [ih]
    simp [decodeTradePrice, Clvm.clist, decAtomNat_encNat t.trade_price]

theorem decodeCondition_createCoin (c : CreateCoin) :
    decodeCondition (Condition.toClvm (.createCoin c)) = .createCoin c := by
  simp [Condition.toClvm, CreateCoin.toClvm, Clvm.clist, decodeCondition,
    decAtomNat_encNat, decodeBytesList_encodeBytesList]

theorem canonical_createCoin (c : CreateCoin) :
    Condition.canonical (.createCoin c) := decodeCondition_createCoin c

theorem decodeConditionList_encode (cs : List Condition)
    (h : ∀ c ∈ cs, c.canonical) :
    decodeConditionList (encodeConditionList cs) = .ok cs := by
  induction cs with
  | nil => rfl
  | cons c cs ih =>
    have hc : decodeCondition c.toClvm = c := h c (List.mem_cons_self ..)
    have ih' : decodeConditionList (Clvm.clist (cs.map Condition.toClvm)) = .ok cs :=
      ih fun x hx => h x (List.mem_cons_of_mem _ hx)
    simp only [encodeConditionList, List.map_cons, Clvm.clist, decodeConditionList] at *
    rw [ih', hc]

theorem decodeMeta_encodeMeta (m : Hash) : decodeMeta (encodeMeta m) = .ok m := rfl

theorem treeHash_singletonPuzzle (l : Hash) (inner : Clvm) :
    treeHash (singletonPuzzle l inner) = singletonCurryHash l (treeHash inner) := rfl

theorem treeHash_nftStatePuzzle (metaC : Clvm) (u : Hash) (inner : Clvm) :
    treeHash (nftStatePuzzle metaC u inner) =
      nftStateCurryHash (treeHash metaC) u (treeHash inner) := rfl

theorem treeHash_delegationPuzzle (l o r : Hash) :
    treeHash (delegationPuzzle l o r) = delegationCurryHash l o r := rfl

theorem decodeProof_encodeProof (p : Proof) : decodeProof (encodeProof p) = .ok p := by
  cases p with
  | eve pp amt => simp [encodeProof, Clvm.clist, decodeProof, decAtomNat_encNat]
  | lineage pp iph amt => simp [encodeProof, Clvm.clist, decodeProof, decAtomNat_encNat]

theorem decodeSingletonSolution_encode (prf : Proof) (amount : Nat) (inner : Clvm) :
    decodeSingletonSolution (encodeSingletonSolution prf amount inner) =
      .ok (prf, amount, inner) := by
  simp [encodeSingletonSolution, Clvm.clist, decodeSingletonSolution,
    decodeProof_encodeProof, decAtomNat_encNat]

theorem treeHash_catPuzzle (a : Hash) (inner : Clvm) :
    treeHash (catPuzzle a inner) = catCurryHash a (treeHash inner) := rfl

/-- C10: `Secp256r1Signature::from_clvm` returns `Ok` only for atoms of
exactly 64 bytes; for every atom whose length is not 64 it returns
`WrongAtomLength { expected := 64, found := the actual length }` (and it is a
total function, so it never panics); and for every signature `s`, decoding
the node produced by `to_clvm(s)` returns `Ok(s)`. -/
theorem C10_secp256r1_from_clvm :
    (∀ v s, Secp256r1Signature.fromClvm v = .ok s → v = .atom s.val ∧ s.val.length = 64)
  ∧ (∀ bs : List Nat, bs.length ≠ 64 →
      Secp256r1Signature.fromClvm (.atom bs) = .error (.wrongAtomLength 64 bs.length))
  ∧ (∀ s : Secp256r1Signature, Secp256r1Signature.fromClvm s.toClvm = .ok s) := by
  refine ⟨?_, ?_, ?_⟩
  · intro v s h
    unfold Secp256r1Signature.fromClvm at h
    split at h
    · split at h
      · rename_i hl
        cases h
        exact ⟨rfl, hl⟩
      · cases h
    · cases h
    · cases h
  · intro bs h
    simp [Secp256r1Signature.fromClvm, h]
  · intro s
    obtain ⟨bs, hl⟩ := s
    simp [Secp256r1Signature.toClvm, Secp256r1Signature.fromClvm, hl]

/-- Witness for C10 at concrete inputs: a 1-byte atom is rejected with
`WrongAtomLength 64 1`, and the all-zero 64-byte signature round-trips. -/
theorem C10_witness :
    Secp256r1Signature.fromClvm (.atom [5]) = .error (.wrongAtomLength 64 1)
  ∧ Secp256r1Signature.fromClvm
      (Secp256r1Signature.toClvm ⟨List.replicate 64 0, by decide⟩) =
      .ok ⟨List.replicate 64 0, by decide⟩ :=
  ⟨C10_secp256r1_from_clvm.2.1 [5] (by decide),
   C10_secp256r1_from_clvm.2.2 ⟨List.replicate 64 0, by decide⟩⟩

/-- C9: the typed condition encoders emit the documented numeric opcodes —
`NewMetadataCondition` encodes with first list element `-24`,
`NewMerkleRootCondition` with `-13`, the transfer-NFT condition
(`NewNftOwner`) with `-10`, and both `RunTail` and `MeltSingleton` encode as
opcode `51` followed by a nil puzzle hash and the magic amount `-113`; each
decoder accepts exactly these constants (it succeeds only on nodes headed by
them, and it succeeds on every encoded value). -/
theorem C9_condition_opcodes :
    (∀ c : NewMetadataCondition, c.toClvm =
        .pair (.atom (intToBytes (-24)))
          (.clist [c.metadata_updater_reveal, c.metadata_updater_solution]))
  ∧ (∀ v c, decodeNewMetadataCondition v = .ok c →
        ∃ rest, v = .pair (.atom (intToBytes (-24))) rest)
  ∧ (∀ c : NewMetadataCondition, decodeNewMetadataCondition c.toClvm = .ok c)
  ∧ (∀ c : NewMerkleRootCondition, c.toClvm =
        .pair (.atom (intToBytes (-13)))
          (.pair (.hashAtom c.new_merkle_root) (encodeBytesList c.memos)))
  ∧ (∀ v c, decodeNewMerkleRootCondition v = .ok c →
        ∃ rest, v = .pair (.atom (intToBytes (-13))) rest)
  ∧ (∀ c : NewMerkleRootCondition, decodeNewMerkleRootCondition c.toClvm = .ok c)
  ∧ (∀ c : NewNftOwner, c.toClvm =
        .pair (.atom (intToBytes (-10)))
          (.clist [encodeOptB32 c.did_id,
            Clvm.clist (c.trade_prices.map NftTradePrice.toClvm),
            encodeOptB32 c.did_inner_puzzle_hash]))
  ∧ (∀ v c, decodeNewNftOwner v = .ok c →
        ∃ rest, v = .pair (.atom (intToBytes (-10))) rest)
  ∧ (∀ c : NewNftOwner, decodeNewNftOwner c.toClvm = .ok c)
  ∧ (∀ c : RunTail, c.toClvm =
        .pair (.atom (intToBytes 51)) (.pair (.atom [])
          (.pair (.atom (intToBytes (-113))) (.clist [c.program, c.solution]))))
  ∧ (∀ v c, decodeRunTail v = .ok c →
        ∃ rest, v = .pair (.atom (intToBytes 51)) (.pair (.atom [])
          (.pair (.atom (intToBytes (-113))) rest)))
  ∧ (∀ c : RunTail, decodeRunTail c.toClvm = .ok c)
  ∧ (MeltSingleton.toClvm = .pair (.atom (intToBytes 51)) (.pair (.atom [])
      (.pair (.atom (intToBytes (-113))) (.atom []))))
  ∧ (∀ v, decodeMeltSingleton v = .ok () → v = MeltSingleton.toClvm)
  ∧ (decodeMeltSingleton MeltSingleton.toClvm = .ok ()) := by
  refine ⟨fun c => rfl, ?_, ?_, fun c => rfl, ?_, ?_, fun c => rfl, ?_, ?_,
    fun c => rfl, ?_, ?_, rfl, ?_, by decide⟩
  · intro v c h
    unfold decodeNewMetadataCondition at h
    split at h
    · split at h
      · rename_i hop
        subst hop
        exact ⟨_, rfl⟩
      · cases h
    · cases h
  · intro c
    cases c
    simp [NewMetadataCondition.toClvm, Clvm.clist, decodeNewMetadataCondition, intAtom]
  · intro v c h
    unfold decodeNewMerkleRootCondition at h
    split at h
    · split at h
      · rename_i hop
        subst hop
        exact ⟨_, rfl⟩
      · cases h
    · cases h
  · intro c
    cases c
    simp [NewMerkleRootCondition.toClvm, decodeNewMerkleRootCondition, intAtom,
      decodeBytesList_encodeBytesList]
  · intro v c h
    unfold decodeNewNftOwner at h
    split at h
    · split at h
      · rename_i hop
        subst hop
        exact ⟨_, rfl⟩
      · cases h
    · cases h
  · intro c
    cases c
    simp [NewNftOwner.toClvm, Clvm.clist, decodeNewNftOwner, intAtom,
      decodeOptB32_encodeOptB32, decodeTradePrices_enc]
  · intro v c h
    unfold decodeRunTail at h
    split at h
    · split at h
      · rename_i hop
        obtain ⟨h1, h2, h3⟩ := hop
        subst h1
        subst h2
        subst h3
        exact ⟨_, rfl⟩
      · cases h
    · cases h
  · intro c
    cases c
    simp [RunTail.toClvm, Clvm.clist, decodeRunTail, intAtom]
  · intro v h
    unfold decodeMeltSingleton at h
    split at h
    · split at h
      · rename_i hop
        obtain ⟨h1, h2, h3⟩ := hop
        subst h1
        subst h2
        subst h3
        rfl
      · cases h
    · cases h

theorem parseDpsLoop_recreation (dps : List DelegatedPuzzle) :
    parseDpsLoop (recreationDpMemos dps) = .ok dps := by
  induction dps with
  | nil => rfl
  | cons dp rest ih =>
    cases dp with
    | admin h =>
      simp [recreationDpMemos, parseDpsLoop, HintType.adminPuzzle,
        HintType.writerPuzzle, HintType.oraclePuzzle, Bytes.toBytes32?, ih]
    | writer h =>
      simp [recreationDpMemos, parseDpsLoop, HintType.adminPuzzle,
        HintType.writerPuzzle, HintType.oraclePuzzle, Bytes.toBytes32?, ih]
    | oracle ph fee =>
      have hfee : decAtomNat (stripLeadingZeros (toSignedBytesBE fee)) = .ok fee :=
        decAtomNat_encNat fee
      simp [recreationDpMemos, parseDpsLoop, HintType.adminPuzzle,
        HintType.writerPuzzle, HintType.oraclePuzzle, Bytes.toBytes32?, hfee, ih]

theorem buildTail_owner_dps (coin : Coin) (lid : Hash) (proof : Proof)
    (m fb owner : Hash) (dps : List DelegatedPuzzle) :
    buildTail coin lid proof m fb (Bytes.ofHash owner :: recreationDpMemos dps) =
      .ok ⟨coin, proof, ⟨lid, m, owner, dps⟩⟩ := by
  simp [buildTail, Bytes.toBytes32?, parseDpsLoop_recreation]

/-- `build_datastore` inverts `get_recreation_memos` (shared helper for the
memo-round-trip and parse-after-construct claims). -/
theorem build_datastore_recreation (coin : Coin) (lid : Hash) (proof : Proof)
    (metadata fallback owner : Hash) (dps : List DelegatedPuzzle) :
    build_datastore coin lid proof metadata fallback
      (get_recreation_memos lid owner dps) =
      .ok ⟨coin, proof, ⟨lid, metadata, owner, dps⟩⟩ := by
  cases dps with
  | nil =>
    simp [get_recreation_memos, recreationDpMemos, build_datastore, buildTail,
      Bytes.toBytes32?, parseDpsLoop]
  | cons dp rs =>
    have hp := buildTail_owner_dps coin lid proof metadata fallback owner (dp :: rs)
    cases dp with
    | admin h =>
      simp only [recreationDpMemos] at hp
      simp [get_recreation_memos, recreationDpMemos, build_datastore, hp]
    | writer h =>
      simp only [recreationDpMemos] at hp
      simp [get_recreation_memos, recreationDpMemos, build_datastore, hp]
    | oracle ph fee =>
      simp only [recreationDpMemos] at hp
      simp [get_recreation_memos, recreationDpMemos, build_datastore, hp]

/-- C7: memo round trip — for every launcher id, owner puzzle hash and
non-empty delegated-puzzle list, `build_datastore` (with the same launcher id
and any coin, proof and metadata) applied to the memo list produced by
`get_recreation_memos(launcher_id, owner, delegated_puzzles)` succeeds and
yields a `DataStore` whose info carries exactly that owner puzzle hash and
exactly that delegated-puzzle list, in the same order. -/
theorem C7_memo_round_trip (coin : Coin) (launcher_id : Hash) (proof : Proof)
    (metadata fallback_owner_ph owner_puzzle_hash : Hash)
    (delegated_puzzles : List DelegatedPuzzle) (hne : delegated_puzzles ≠ []) :
    build_datastore coin launcher_id proof metadata fallback_owner_ph
      (get_recreation_memos launcher_id owner_puzzle_hash delegated_puzzles) =
      .ok ⟨coin, proof,
        ⟨launcher_id, metadata, owner_puzzle_hash, delegated_puzzles⟩⟩ :=
  build_datastore_recreation coin launcher_id proof metadata fallback_owner_ph
    owner_puzzle_hash delegated_puzzles

/-- Witness for C7 at a concrete input: an admin-plus-oracle delegated set
(oracle fee 1000) round-trips through the memo protocol. -/
theorem C7_witness :
    ([DelegatedPuzzle.admin (.atomH [1]),
      DelegatedPuzzle.oracle (.atomH [2]) 1000] ≠ ([] : List DelegatedPuzzle))
  ∧ build_datastore ⟨.atomH [3], .atomH [4], 1⟩ (.atomH [5]) (.eve (.atomH [3]) 1)
      (.atomH [6]) (.atomH [7])
      (get_recreation_memos (.atomH [5]) (.atomH [8])
        [.admin (.atomH [1]), .oracle (.atomH [2]) 1000]) =
      .ok ⟨⟨.atomH [3], .atomH [4], 1⟩, .eve (.atomH [3]) 1,
        ⟨.atomH [5], .atomH [6], .atomH [8],
          [.admin (.atomH [1]), .oracle (.atomH [2]) 1000]⟩⟩ :=
  ⟨by decide,
   C7_memo_round_trip ⟨.atomH [3], .atomH [4], 1⟩ (.atomH [5]) (.eve (.atomH [3]) 1)
     (.atomH [6]) (.atomH [7]) (.atomH [8])
     [.admin (.atomH [1]), .oracle (.atomH [2]) 1000] (by decide)⟩

theorem buildTail_fields (coin : Coin) (lid : Hash) (proof : Proof) (m fb : Hash)
    (ms : List Bytes) (d : DataStore) (h : buildTail coin lid proof m fb ms = .ok d) :
    d.coin = coin ∧ d.proof = proof ∧ d.info.launcher_id = lid ∧ d.info.metadata = m := by
  unfold buildTail at h
  split at h
  · cases h; exact ⟨rfl, rfl, rfl, rfl⟩
  · split at h
    · cases h
    · split at h
      · cases h
      · cases h; exact ⟨rfl, rfl, rfl, rfl⟩

/-- Whenever `build_datastore` succeeds, the resulting datastore keeps the
coin, proof, launcher id and metadata it was given. -/
theorem build_datastore_fields (coin : Coin) (lid : Hash) (proof : Proof) (m fb : Hash)
    (memos : List Bytes) (d : DataStore)
    (h : build_datastore coin lid proof m fb memos = .ok d) :
    d.coin = coin ∧ d.proof = proof ∧ d.info.launcher_id = lid ∧ d.info.metadata = m := by
  unfold build_datastore at h
  split at h
  · cases h; exact ⟨rfl, rfl, rfl, rfl⟩
  · split at h
    · split at h
      · split at h
        · split at h
          · cases h; exact ⟨rfl, rfl, rfl, rfl⟩
          · cases h
        · exact buildTail_fields _ _ _ _ _ _ _ h
      · exact buildTail_fields _ _ _ _ _ _ _ h
    · cases h

/-- C6: on a launcher spend, `from_spend` decodes the solution as the modern
`DLLauncherKVList` and falls back to the legacy `OldDLLauncherKVList` exactly
when the modern decode error is `FromClvmError::ExpectedPair`; every other
modern decode error is surfaced unchanged as `DriverError::FromClvm`, and the
fallback decoder's own errors are likewise surfaced unchanged (no other error
kind is recovered internally). -/
theorem C6_legacy_fallback (cs : CoinSpend) (parentDps : List DelegatedPuzzle)
    (hL : cs.coin.puzzle_hash = SINGLETON_LAUNCHER_PUZZLE_HASH) :
    (∀ e, decodeLauncherModern cs.solution = .error e → e ≠ .expectedPair →
      DataStore.from_spend cs parentDps = .error (.fromClvm e))
  ∧ (∀ e2, decodeLauncherModern cs.solution = .error .expectedPair →
      decodeLauncherOld cs.solution = .error e2 →
      DataStore.from_spend cs parentDps = .error (.fromClvm e2))
  ∧ (∀ sol, decodeLauncherModern cs.solution = .error .expectedPair →
      decodeLauncherOld cs.solution = .ok sol →
      DataStore.from_spend cs parentDps =
        (build_datastore ⟨cs.coin.coinId, sol.singleton_puzzle_hash, sol.amount⟩
          cs.coin.coinId (.eve cs.coin.parent_coin_info cs.coin.amount)
          sol.key_value_list.root_hash
          sol.key_value_list.state_layer_inner_puzzle_hash
          sol.key_value_list.memos).map some) := by
  refine ⟨?_, ?_, ?_⟩
  · intro e h1 h2
    unfold DataStore.from_spend
    rw [if_pos hL, h1]
    cases e
    · rfl
    · exact absurd rfl h2
    · rfl
    · rfl
  · intro e2 h1 h2
    unfold DataStore.from_spend
    rw [if_pos hL, h1, h2]
  · intro sol h1 h2
    unfold DataStore.from_spend
    rw [if_pos hL, h1, h2]
    cases hb : build_datastore (⟨cs.coin.coinId, sol.singleton_puzzle_hash, sol.amount⟩ : Coin)
        cs.coin.coinId (.eve cs.coin.parent_coin_info cs.coin.amount)
        sol.key_value_list.root_hash
        sol.key_value_list.state_layer_inner_puzzle_hash
        sol.key_value_list.memos with
    | ok d => simp [hb, Except.map]
    | error e => simp [hb, Except.map]

/-- Witness for C6 at concrete solutions: a non-`ExpectedPair` modern decode
error (a short atom in the `Bytes32` slot) is surfaced unchanged; an
`ExpectedPair` with a broken legacy layout surfaces the legacy error; and an
`ExpectedPair` with a well-formed legacy layout takes the fallback path. -/
theorem C6_witness :
    DataStore.from_spend
      ⟨⟨.atomH [1], SINGLETON_LAUNCHER_PUZZLE_HASH, 1⟩, .atom [],
        Clvm.clist [.atom [5], .atom (encNat 1), .atom []]⟩ [] =
      .error (.fromClvm (.wrongAtomLength 32 1))
  ∧ DataStore.from_spend
      ⟨⟨.atomH [1], SINGLETON_LAUNCHER_PUZZLE_HASH, 1⟩, .atom [],
        Clvm.clist [.hashAtom (.atomH [2]), .atom (encNat 1),
          Clvm.clist [.hashAtom (.atomH [3])]]⟩ [] =
      .error (.fromClvm .expectedPair)
  ∧ DataStore.from_spend
      ⟨⟨.atomH [1], SINGLETON_LAUNCHER_PUZZLE_HASH, 1⟩, .atom [],
        Clvm.clist [.hashAtom (.atomH [2]), .atom (encNat 1),
          Clvm.clist [.hashAtom (.atomH [3]), .hashAtom (.atomH [4])]]⟩ [] =
      (build_datastore
        ⟨(Coin.mk (.atomH [1]) SINGLETON_LAUNCHER_PUZZLE_HASH 1).coinId, .atomH [2], 1⟩
        (Coin.mk (.atomH [1]) SINGLETON_LAUNCHER_PUZZLE_HASH 1).coinId
        (.eve (.atomH [1]) 1) (.atomH [3]) (.atomH [4]) []).map some :=
  ⟨(C6_legacy_fallback _ [] rfl).1 (.wrongAtomLength 32 1) (by decide) (by decide),
   (C6_legacy_fallback _ [] rfl).2.1 .expectedPair (by decide) (by decide),
   (C6_legacy_fallback _ [] rfl).2.2
     ⟨.atomH [2], 1, ⟨.atomH [3], .atomH [4], []⟩⟩ (by decide) (by decide)⟩

/-- C8 counterexample: the claim as stated fails — a launcher spend whose
solution decodes as a modern `LauncherSolution` can still be rejected when the
memo payload is malformed (`InvalidMemo`), so `from_spend` does not always
return `Ok(Some _)` under the claim's premises. -/
theorem C8_counterexample :
    decodeLauncherModern (Clvm.clist [.hashAtom (.atomH [2]), .atom (encNat 1),
        Clvm.clist [encodeMeta (.atomH [3]), .hashAtom (.atomH [4]), .atom [5]]]) =
      .ok ⟨.atomH [2], 1, ⟨.atomH [3], .atomH [4], [.raw [5]]⟩⟩
  ∧ DataStore.from_spend
      ⟨⟨.atomH [1], SINGLETON_LAUNCHER_PUZZLE_HASH, 1⟩, .atom [],
        Clvm.clist [.hashAtom (.atomH [2]), .atom (encNat 1),
          Clvm.clist [encodeMeta (.atomH [3]), .hashAtom (.atomH [4]), .atom [5]]]⟩ [] =
      .error .invalidMemo := by decide

/-- C8 (amended): on a launcher spend whose solution decodes as the modern
`LauncherSolution` and whose memo payload `build_datastore` accepts,
`from_spend` returns `Ok(Some d)` where `d` has launcher id the spent coin's
coin id, proof `Eve { parent_parent_coin_info = the spent coin's parent,
parent_amount = the spent coin's amount }`, and coin
`(launcher_id, solution.singleton_puzzle_hash, solution.amount)`. -/
theorem C8_launcher_spend (cs : CoinSpend) (parentDps : List DelegatedPuzzle)
    (sol : LauncherSolution DLLauncherKVList) (d : DataStore)
    (h1 : cs.coin.puzzle_hash = SINGLETON_LAUNCHER_PUZZLE_HASH)
    (h2 : decodeLauncherModern cs.solution = .ok sol)
    (h3 : build_datastore ⟨cs.coin.coinId, sol.singleton_puzzle_hash, sol.amount⟩
        cs.coin.coinId (.eve cs.coin.parent_coin_info cs.coin.amount)
        sol.key_value_list.metadata sol.key_value_list.state_layer_inner_puzzle_hash
        (.ofHash cs.coin.coinId :: sol.key_value_list.memos) = .ok d) :
    DataStore.from_spend cs parentDps = .ok (some d)
    ∧ d.info.launcher_id = cs.coin.coinId
    ∧ d.proof = .eve cs.coin.parent_coin_info cs.coin.amount
    ∧ d.coin = ⟨cs.coin.coinId, sol.singleton_puzzle_hash, sol.amount⟩ := by
  obtain ⟨hc, hp, hl, _⟩ := build_datastore_fields _ _ _ _ _ _ _ h3
  refine ⟨?_, hl, hp, hc⟩
  unfold DataStore.from_spend
  rw [if_pos h1, h2]
  simp only [h3]

/-- Witness for C8 at a concrete well-formed launcher spend. -/
theorem C8_witness :
    DataStore.from_spend
      ⟨⟨.atomH [1], SINGLETON_LAUNCHER_PUZZLE_HASH, 1⟩, .atom [],
        Clvm.clist [.hashAtom (.atomH [2]), .atom (encNat 1),
          Clvm.clist [encodeMeta (.atomH [3]), .hashAtom (.atomH [4])]]⟩ [] =
      .ok (some ⟨⟨(Coin.mk (.atomH [1]) SINGLETON_LAUNCHER_PUZZLE_HASH 1).coinId,
          .atomH [2], 1⟩,
        .eve (.atomH [1]) 1,
        ⟨(Coin.mk (.atomH [1]) SINGLETON_LAUNCHER_PUZZLE_HASH 1).coinId,
          .atomH [3], .atomH [4], []⟩⟩) :=
  (C8_launcher_spend _ [] ⟨.atomH [2], 1, ⟨.atomH [3], .atomH [4], []⟩⟩ _
    rfl (by decide) (by decide)).1

theorem scanStep_fst (acc : Option CreateCoin × Option NewMetadataCondition)
    (c : Condition) :
    (scanStep acc c).1 = match oddCC? c with
      | some cc => some cc
      | none => acc.1 := by
  cases c with
  | createCoin cc =>
    by_cases h : cc.amount % 2 = 1 <;> simp [scanStep, oddCC?, h]
  | other v =>
    cases hd : decodeNewMetadataCondition v <;> simp [scanStep, oddCC?, hd]

theorem foldl_scanStep_fst (conds : List Condition) :
    ∀ acc, (List.foldl scanStep acc conds).1 =
      match lastOdd conds with
      | some cc => some cc
      | none => acc.1 := by
  induction conds with
  | nil => intro acc; simp [lastOdd]
  | cons c cs ih =>
    intro acc
    simp only [List.foldl_cons, lastOdd]
    rw [ih (scanStep acc c), scanStep_fst]
    cases hl : lastOdd cs <;> cases ho : oddCC? c <;> simp

/-- The first component of the condition scan is the last odd-amount
`CreateCoin`. -/
theorem scanConditions_fst (conds : List Condition) :
    (scanConditions conds).1 = lastOdd conds := by
  unfold scanConditions
  rw [foldl_scanStep_fst]
  cases hl : lastOdd conds <;> simp

theorem oddCC?_eq_none (c : Condition) :
    oddCC? c = none ↔ isOddCreateCoin c = false := by
  cases c with
  | createCoin cc => by_cases h : cc.amount % 2 = 1 <;> simp [oddCC?, isOddCreateCoin, h]
  | other v => simp [oddCC?, isOddCreateCoin]

theorem lastOdd_eq_none (conds : List Condition) :
    lastOdd conds = none ↔ ∀ c ∈ conds, isOddCreateCoin c = false := by
  induction conds with
  | nil => simp [lastOdd]
  | cons c cs ih =>
    simp only [lastOdd, List.mem_cons]
    cases hl : lastOdd cs with
    | some cc =>
      simp only [hl]
      constructor
      · intro h; cases h
      · intro h
        have hcs : ∀ x ∈ cs, isOddCreateCoin x = false := fun x hx => h x (Or.inr hx)
        have h2 : lastOdd cs = none := ih.mpr hcs
        rw [h2] at hl
        cases hl
    | none =>
      simp only [hl]
      have hcs := ih.mp hl
      constructor
      · intro h x hx
        rcases hx with rfl | hx
        · exact (oddCC?_eq_none x).mp h
        · exact hcs x hx
      · intro h
        exact (oddCC?_eq_none c).mpr (h c (Or.inl rfl))

theorem runDelegationLayer_err (sh : Hash) (args : DelegationLayerArgs)
    (sol : DelegationLayerSolution) (e : DriverError)
    (h : runDelegationLayer sh args sol = .error e) : e = .vm := by
  unfold runDelegationLayer at h
  split at h
  · split at h
    · cases h; rfl
    · cases h
  · cases h; rfl

/-- The modelled VM only fails with `Vm` errors. -/
theorem run_puzzle_err (p s : Clvm) (e : DriverError)
    (h : run_puzzle p s = .error e) : e = .vm := by
  unfold run_puzzle at h
  split at h
  · cases h
  · split at h
    · split at h
      · cases h; rfl
      · split at h
        · cases h; rfl
        · exact runDelegationLayer_err _ _ _ _ h
    · cases h; rfl
  · cases h; rfl

/-- `get_next_metadata` only fails with `FromClvm` errors. -/
theorem get_next_metadata_err (m u : Hash) (c : NewMetadataCondition) (e : DriverError)
    (h : get_next_metadata m u c = .error e) : ∃ f, e = .fromClvm f := by
  unfold get_next_metadata at h
  split at h
  · split at h
    · cases h
    · cases h; exact ⟨_, rfl⟩
  · cases h; exact ⟨_, rfl⟩

theorem parseDpsLoop_err_aux : ∀ (n : Nat) (ms : List Bytes), ms.length ≤ n →
    ∀ e, parseDpsLoop ms = .error e → e = .invalidMemo ∨ e = .missingMemo := by
  intro n
  induction n with
  | zero =>
    intro ms hlen e hp
    match ms with
    | [] => simp [parseDpsLoop] at hp
    | m :: rest => exact absurd hlen (by simp)
  | succ n ih =>
    intro ms hlen e hp
    cases ms with
    | nil => simp [parseDpsLoop] at hp
    | cons tag ms1 =>
    cases ms1 with
    | nil => simp [parseDpsLoop] at hp
    | cons hm rest =>
      unfold parseDpsLoop at hp
      repeat' split at hp
      all_goals try cases hp
      all_goals try exact Or.inl rfl
      all_goals try exact Or.inr rfl
      all_goals
        (rename_i heq
         refine ih _ ?_ _ heq
         simp at hlen
         omega)

/-- The delegated-puzzle memo loop only fails with `InvalidMemo` or
`MissingMemo`. -/
theorem parseDpsLoop_err (ms : List Bytes) (e : DriverError)
    (h : parseDpsLoop ms = .error e) : e = .invalidMemo ∨ e = .missingMemo :=
  parseDpsLoop_err_aux ms.length ms le_rfl e h

theorem buildTail_err (coin : Coin) (lid : Hash) (proof : Proof) (m fb : Hash)
    (ms : List Bytes) (e : DriverError)
    (h : buildTail coin lid proof m fb ms = .error e) :
    e = .invalidMemo ∨ e = .missingMemo := by
  unfold buildTail at h
  split at h
  · cases h
  · split at h
    · cases h; exact Or.inl rfl
    · split at h
      · rename_i heq
        cases h
        exact parseDpsLoop_err _ _ heq
      · cases h

/-- `build_datastore` only fails with `InvalidMemo` or `MissingMemo`. -/
theorem build_datastore_err (coin : Coin) (lid : Hash) (proof : Proof) (m fb : Hash)
    (memos : List Bytes) (e : DriverError)
    (h : build_datastore coin lid proof m fb memos = .error e) :
    e = .invalidMemo ∨ e = .missingMemo := by
  unfold build_datastore at h
  split at h
  · cases h
  · split at h
    · split at h
      · split at h
        · split at h
          · cases h
          · cases h; exact Or.inl rfl
        · exact buildTail_err _ _ _ _ _ _ _ h
      · exact buildTail_err _ _ _ _ _ _ _ h
    · cases h; exact Or.inl rfl

/-- Parsing the constructed singleton layer recovers its fields. -/
theorem singletonParse_construct (lid : Hash) (inner : Clvm) :
    singletonParsePuzzle (singletonPuzzle lid inner) = .ok (some ⟨lid, inner⟩) := rfl

/-- Parsing the constructed state layer recovers its fields. -/
theorem nftStateParse_construct (m uph : Hash) (inner : Clvm) :
    nftStateParsePuzzle (nftStatePuzzle (encodeMeta m) uph inner) =
      .ok (some ⟨m, uph, inner⟩) := rfl

/-- C5: for every non-launcher datastore spend whose puzzle parses as
Singleton over NftState and whose state-layer inner puzzle re-executes to a
decodable condition list, `DataStore::from_spend` returns
`Err(DriverError::MissingChild)` if and only if that output contains no
`CreateCoin` condition with an odd amount. -/
theorem C5_missing_child (coin : Coin) (lid m uph : Hash) (prf : Proof) (amt : Nat)
    (inner innerSol out : Clvm) (conds : List Condition)
    (parentDps : List DelegatedPuzzle)
    (hph : coin.puzzle_hash ≠ SINGLETON_LAUNCHER_PUZZLE_HASH)
    (hrun : run_puzzle inner innerSol = .ok out)
    (hconds : decodeConditionList out = .ok conds) :
    (DataStore.from_spend
        ⟨coin, singletonPuzzle lid (nftStatePuzzle (encodeMeta m) uph inner),
          encodeSingletonSolution prf amt innerSol⟩ parentDps =
      .error .missingChild)
    ↔ ∀ c ∈ conds, isOddCreateCoin c = false := by
  unfold DataStore.from_spend
  rw [if_neg hph]
  simp only [singletonParse_construct, nftStateParse_construct,
    decodeSingletonSolution_encode, hrun, hconds]
  cases hsc : (scanConditions conds).1 with
  | none =>
    simp only [hsc]
    constructor
    · intro _
      exact (lastOdd_eq_none conds).mp ((scanConditions_fst conds).symm.trans hsc)
    · intro _
      trivial
  | some cc =>
    apply iff_of_false
    · intro h
      simp only [hsc] at h
      cases hsnd : (scanConditions conds).2 with
      | none =>
        simp only [hsnd] at h
        repeat' split at h
        all_goals try cases h
        all_goals rename_i heq
        all_goals try (have hv := run_puzzle_err _ _ _ heq; cases hv)
        all_goals try (have hb := build_datastore_err _ _ _ _ _ _ _ heq; (rcases hb with h1 | h1) <;> cases h1)
        all_goals try cases heq
      | some nm =>
        simp only [hsnd] at h
        repeat' split at h
        all_goals try cases h
        all_goals rename_i heq
        all_goals try (have hv := run_puzzle_err _ _ _ heq; cases hv)
        all_goals try (have hg := get_next_metadata_err _ _ _ _ heq; rcases hg with ⟨f, hf⟩; cases hf)
        all_goals try (have hb := build_datastore_err _ _ _ _ _ _ _ heq; (rcases hb with h1 | h1) <;> cases h1)
        all_goals try cases heq
    · intro hall
      have h2 : lastOdd conds = none := (lastOdd_eq_none conds).mpr hall
      have h3 := (scanConditions_fst conds).symm.trans hsc
      rw [h2] at h3
      cases h3

/-- Witness for C5 at a concrete spend whose inner puzzle emits no
conditions: `from_spend` reports `MissingChild`. -/
theorem C5_witness :
    DataStore.from_spend
      ⟨⟨.atomH [1], .atomH [2], 1⟩,
        singletonPuzzle (.atomH [3])
          (nftStatePuzzle (encodeMeta (.atomH [4])) (.atomH [5]) (.quoted (.atom []))),
        encodeSingletonSolution (.eve (.atomH [1]) 1) 1 (.atom [])⟩ [] =
      .error .missingChild :=
  (C5_missing_child ⟨.atomH [1], .atomH [2], 1⟩ (.atomH [3]) (.atomH [4]) (.atomH [5])
    (.eve (.atomH [1]) 1) 1 (.quoted (.atom [])) (.atom []) (.atom []) [] []
    (by decide) rfl (by decide)).mpr (by simp)

/-- C3: evaluation of `CAT::from_parent_spend` at the failing input — the
parent's coin id and the re-parsed stack's tree hash are propagated to the
child coin, but no amount is derived: the amount slot is the unbound `todo`
placeholder of cat.rs line 64 (modelled as `none`), while the claim requires
the amount to be derived from the odd-amount `CreateCoin` of the parent's
inner puzzle output. -/
theorem C3_amount_placeholder :
    CAT.from_parent_spend
      ⟨⟨.atomH [21], .atomH [22], 1000⟩,
        catPuzzle (.atomH [20]) (.quoted (.atom [])), .atom []⟩ =
      .ok (some ⟨(Coin.mk (.atomH [21]) (.atomH [22]) 1000).coinId,
        catCurryHash (.atomH [20]) (.pairH (.atomH [1]) (.atomH [])),
        none, .atomH [20], .pairH (.atomH [1]) (.atomH []),
        some (.quoted (.atom []))⟩) := by decide

/-- C4 counterexample: for a CAT whose coin amount is `2`, the `Proof`
returned by `CAT::spend` carries `parent_amount = 1` (the literal at the call
site), not the coin's amount — so the claim as stated is false. -/
theorem C4_counterexample :
    (CAT.spend ⟨⟨.atomH [30], .atomH [31], 2⟩, .atomH [32], .atomH [33], none⟩
        (.eve (.atomH [30]) 2) ⟨.quoted (.atom []), .atom []⟩).map (fun r => r.2.2) =
      .ok (.lineage (.atomH [30]) (.atomH [33]) 1)
  ∧ (CAT.spend ⟨⟨.atomH [30], .atomH [31], 2⟩, .atomH [32], .atomH [33], none⟩
        (.eve (.atomH [30]) 2) ⟨.quoted (.atom []), .atom []⟩).map (fun r => r.2.2) ≠
      .ok (.lineage (.atomH [30]) (.atomH [33])
        (Coin.mk (.atomH [30]) (.atomH [31]) 2).amount) := by
  constructor
  · decide
  · decide

/-- C4 (amended): for every CAT `c`, lineage proof and inner spend,
`CAT::spend` succeeds and the `Proof` returned as the third component is
`Lineage { parent_parent_coin_info = c.coin.parent_coin_info,
parent_inner_puzzle_hash = c.p2_puzzle_hash, parent_amount = 1 }` — the
parent amount is the hard-coded literal `1`, which equals `c.coin.amount`
only when the coin's amount is 1. -/
theorem C4_spend_lineage (c : CAT) (prf : Proof) (s : Spend) :
    ∃ cs child, CAT.spend c prf s =
      .ok (cs, child, .lineage c.coin.parent_coin_info c.p2_puzzle_hash 1) := by
  cases hp2 : c.p2_puzzle with
  | none =>
    refine ⟨⟨c.coin, catPuzzle c.asset_id s.puzzle,
        encodeCatSolution prf s.solution c.coin.coinId⟩,
      ⟨c.coin.coinId, catCurryHash c.asset_id (treeHash s.puzzle), none,
        c.asset_id, treeHash s.puzzle, some s.puzzle⟩, ?_⟩
    simp [CAT.spend, CAT.get_layered_object, hp2, CAT.from_parent_spend,
      catLayerFromParentSpend, catPuzzle, Clvm.clist, treeHash,
      catLineageProofForChild, CATLayerP.stackHash]
  | some p =>
    refine ⟨⟨c.coin, catPuzzle c.asset_id p,
        encodeCatSolution prf s.solution c.coin.coinId⟩,
      ⟨c.coin.coinId, catCurryHash c.asset_id (treeHash p), none,
        c.asset_id, treeHash p, some p⟩, ?_⟩
    simp [CAT.spend, CAT.get_layered_object, hp2, CAT.from_parent_spend,
      catLayerFromParentSpend, catPuzzle, Clvm.clist, treeHash,
      catLineageProofForChild, CATLayerP.stackHash]

/-- Witness for C9 at concrete inputs: the decoders accept concrete encoded
values, and the accepted node is headed by the documented opcode. -/
theorem C9_witness :
    (∃ rest, (NewMetadataCondition.mk (.atom []) (.atom [])).toClvm =
        .pair (.atom (intToBytes (-24))) rest)
  ∧ (∃ rest, (RunTail.mk (.atom []) (.atom [])).toClvm =
        .pair (.atom (intToBytes 51)) (.pair (.atom [])
          (.pair (.atom (intToBytes (-113))) rest)))
  ∧ MeltSingleton.toClvm = .pair (.atom (intToBytes 51)) (.pair (.atom [])
      (.pair (.atom (intToBytes (-113))) (.atom []))) :=
  ⟨C9_condition_opcodes.2.1 _ ⟨.atom [], .atom []⟩ (by decide),
   C9_condition_opcodes.2.2.2.2.2.2.2.2.2.2.1 _ ⟨.atom [], .atom []⟩ (by decide),
   C9_condition_opcodes.2.2.2.2.2.2.2.2.2.2.2.2.1⟩

theorem delegMapCond_id (l o : Hash) (c : Condition) (h : plainCond c = true) :
    delegMapCond l o c = c := by
  cases c with
  | createCoin cc => rfl
  | other v =>
    cases hmr : decodeNewMerkleRootCondition v with
    | ok x =>
      simp [plainCond, hmr, exceptIsErr] at h
    | error e =>
      simp [delegMapCond, hmr]

theorem map_delegMapCond_id (l o : Hash) (conds : List Condition)
    (h : ∀ c ∈ conds, plainCond c = true) :
    conds.map (delegMapCond l o) = conds := by
  induction conds with
  | nil => rfl
  | cons c cs ih =>
    simp only [List.map_cons]
    rw [delegMapCond_id l o c (h c (List.mem_cons_self ..)),
      ih fun x hx => h x (List.mem_cons_of_mem _ hx)]

theorem scanStep_snd_plain (acc : Option CreateCoin × Option NewMetadataCondition)
    (c : Condition) (h : plainCond c = true) : (scanStep acc c).2 = acc.2 := by
  cases c with
  | createCoin cc => by_cases ho : cc.amount % 2 = 1 <;> simp [scanStep, ho]
  | other v =>
    cases hd : decodeNewMetadataCondition v with
    | ok x => simp [plainCond, hd, exceptIsErr] at h
    | error e => simp [scanStep, hd]

theorem foldl_scanStep_snd (conds : List Condition)
    (h : ∀ c ∈ conds, plainCond c = true) :
    ∀ acc, (List.foldl scanStep acc conds).2 = acc.2 := by
  induction conds with
  | nil => intro acc; rfl
  | cons c cs ih =>
    intro acc
    simp only [List.foldl_cons]
    rw [ih (fun x hx => h x (List.mem_cons_of_mem _ hx)) (scanStep acc c),
      scanStep_snd_plain acc c (h c (List.mem_cons_self ..))]

theorem scanConditions_snd_none (conds : List Condition)
    (h : ∀ c ∈ conds, plainCond c = true) : (scanConditions conds).2 = none :=
  foldl_scanStep_snd conds h (none, none)

theorem decodeDelegationSolution_toClvm (d : DelegationLayerSolution) :
    decodeDelegationSolution d.toClvm = .ok d := by
  cases d; rfl

theorem decodeRawList_clist (vs : List Clvm) :
    decodeRawList (Clvm.clist vs) = .ok vs := by
  induction vs with
  | nil => rfl
  | cons v vs ih => simp only [Clvm.clist, decodeRawList, ih]

theorem map_decode_encode (conds : List Condition)
    (h : ∀ c ∈ conds, c.canonical) :
    (conds.map Condition.toClvm).map decodeCondition = conds := by
  induction conds with
  | nil => rfl
  | cons c cs ih =>
    simp only [List.map_cons]
    rw [h c (List.mem_cons_self ..), ih fun x hx => h x (List.mem_cons_of_mem _ hx)]

theorem oddCC?_some (c : Condition) (x : CreateCoin) (h : oddCC? c = some x) :
    c = .createCoin x ∧ isOddCreateCoin c = true := by
  cases c with
  | createCoin cc =>
    by_cases ho : cc.amount % 2 = 1
    · have h2 : cc = x := by simpa [oddCC?, ho] using h
      subst h2
      exact ⟨rfl, by simp [isOddCreateCoin, ho]⟩
    · simp [oddCC?, ho] at h
  | other v => simp [oddCC?] at h

theorem filterMap_oddCC_nil (conds : List Condition)
    (h : conds.filterMap oddCC? = []) : ∀ c ∈ conds, oddCC? c = none := by
  induction conds with
  | nil => simp
  | cons c cs ih =>
    intro x hx
    rw [List.filterMap_cons] at h
    cases ho : oddCC? c with
    | some y => rw [ho] at h; cases h
    | none =>
      rw [ho] at h
      rcases List.mem_cons.mp hx with rfl | hx
      · exact ho
      · exact ih h x hx

theorem any_odd_false (conds : List Condition)
    (h : conds.filterMap oddCC? = []) : conds.any isOddCreateCoin = false := by
  rw [List.any_eq_false]
  intro c hc
  have := filterMap_oddCC_nil conds h c hc
  simp [(oddCC?_eq_none c).mp this]

theorem lastOdd_of_filterMap_nil (conds : List Condition)
    (h : conds.filterMap oddCC? = []) : lastOdd conds = none := by
  rw [lastOdd_eq_none]
  intro c hc
  exact (oddCC?_eq_none c).mp (filterMap_oddCC_nil conds h c hc)

theorem lastOdd_of_filterMap_single (conds : List Condition) (cc : CreateCoin)
    (h : conds.filterMap oddCC? = [cc]) : lastOdd conds = some cc := by
  induction conds with
  | nil => cases h
  | cons c cs ih =>
    rw [List.filterMap_cons] at h
    cases ho : oddCC? c with
    | some y =>
      rw [ho] at h
      injection h with h1 h2
      subst h1
      simp only [lastOdd, lastOdd_of_filterMap_nil cs h2, ho]
    | none =>
      rw [ho] at h
      simp only [lastOdd, ih h]

theorem find?_of_filterMap_single (conds : List Condition) (cc : CreateCoin)
    (h : conds.filterMap oddCC? = [cc]) :
    conds.find? isOddCreateCoin = some (.createCoin cc) := by
  induction conds with
  | nil => cases h
  | cons c cs ih =>
    rw [List.filterMap_cons] at h
    cases ho : oddCC? c with
    | some y =>
      rw [ho] at h
      injection h with h1 h2
      obtain ⟨hc, hodd⟩ := oddCC?_some c y ho
      have hcc : c = Condition.createCoin cc := by rw [hc, h1]
      rw [hcc] at hodd
      simp [List.find?_cons, hodd, hcc]
    | none =>
      rw [ho] at h
      have hodd : isOddCreateCoin c = false := (oddCC?_eq_none c).mp ho
      simp [List.find?_cons, hodd, ih h]

theorem any_odd_true_of_single (conds : List Condition) (cc : CreateCoin)
    (h : conds.filterMap oddCC? = [cc]) : conds.any isOddCreateCoin = true := by
  induction conds with
  | nil => cases h
  | cons c cs ih =>
    rw [List.filterMap_cons] at h
    cases ho : oddCC? c with
    | some y =>
      rw [ho] at h
      obtain ⟨hc, hodd⟩ := oddCC?_some c y ho
      simp [List.any_cons, hodd]
    | none =>
      rw [ho] at h
      simp [List.any_cons, ih h]

theorem lastOdd_append (l : List Condition) (c : Condition) :
    lastOdd (l ++ [c]) = match oddCC? c with
      | some x => some x
      | none => lastOdd l := by
  induction l with
  | nil => cases ho : oddCC? c <;> simp [lastOdd, ho]
  | cons a l ih =>
    simp only [List.cons_append, lastOdd, List.append_eq]
    rw [ih]
    cases ho : oddCC? c <;> cases hl : lastOdd l <;> simp [lastOdd, hl, ho]

theorem find_of_filterMap_nil (conds : List Condition)
    (h : conds.filterMap oddCC? = []) :
    conds.find? isOddCreateCoin = none := by
  rw [List.find?_eq_none]
  intro c hc
  simp [(oddCC?_eq_none c).mp (filterMap_oddCC_nil conds h c hc)]

theorem run_puzzle_quoted (v s : Clvm) : run_puzzle (.quoted v) s = .ok v := rfl

theorem run_puzzle_deleg (dl_lid owner root : Hash) (d : DelegationLayerSolution) :
    run_puzzle (delegationPuzzle dl_lid owner root) d.toClvm =
      runDelegationLayer (delegationCurryHash dl_lid owner root)
        ⟨DELEGATION_LAYER_PUZZLE_HASH, dl_lid, owner, root⟩ d := by
  cases d
  rfl

theorem runDelegationLayer_quoted (sh : Hash) (args : DelegationLayerArgs)
    (mp psol : Clvm) (conds : List Condition)
    (hcanon : ∀ c ∈ conds, c.canonical)
    (hplain : ∀ c ∈ conds, plainCond c = true) :
    runDelegationLayer sh args ⟨mp, .quoted (encodeConditionList conds), psol⟩ =
      .ok (encodeConditionList
        (if conds.any isOddCreateCoin then conds
         else conds ++ [.createCoin ⟨sh, 1, []⟩])) := by
  unfold runDelegationLayer
  simp only
  rw [decodeConditionList_encode conds hcanon]
  simp only [map_delegMapCond_id args.launcher_id args.owner_puzzle_hash conds hplain]

theorem curriedArgs_delegationPuzzle (l o r : Hash) :
    (delegationPuzzle l o r).curriedArgs? =
      some (.clist [.hashAtom DELEGATION_LAYER_PUZZLE_HASH, .hashAtom l,
        .hashAtom o, .hashAtom r]) := rfl

theorem decodeDelegationArgs_list (l o r : Hash) :
    decodeDelegationArgs (Clvm.clist [.hashAtom DELEGATION_LAYER_PUZZLE_HASH,
        .hashAtom l, .hashAtom o, .hashAtom r]) =
      .ok ⟨DELEGATION_LAYER_PUZZLE_HASH, l, o, r⟩ := rfl

theorem decodeRawList_encodeConditionList (cs : List Condition) :
    decodeRawList (encodeConditionList cs) = .ok (cs.map Condition.toClvm) :=
  decodeRawList_clist _

theorem canonical_delegMapCond (l o : Hash) (c : Condition) (h : c.canonical) :
    (delegMapCond l o c).canonical := by
  cases c with
  | createCoin cc => exact h
  | other v =>
    cases hmr : decodeNewMerkleRootCondition v with
    | ok x =>
      simp only [delegMapCond, hmr]
      exact canonical_createCoin _
    | error e =>
      simp only [delegMapCond, hmr]
      exact h

theorem canonical_delegOutput (l o sh : Hash) (conds : List Condition)
    (hcanon : ∀ c ∈ conds, c.canonical) :
    ∀ c ∈ delegOutput l o sh conds, c.canonical := by
  intro c hc
  unfold delegOutput at hc
  simp only at hc
  split at hc
  · rcases List.mem_map.mp hc with ⟨x, hx, rfl⟩
    exact canonical_delegMapCond l o x (hcanon x hx)
  · rcases List.mem_append.mp hc with h | h
    · rcases List.mem_map.mp h with ⟨x, hx, rfl⟩
      exact canonical_delegMapCond l o x (hcanon x hx)
    · rw [List.mem_singleton.mp h]
      exact canonical_createCoin _

theorem runDelegationLayer_quoted_out (sh : Hash) (args : DelegationLayerArgs)
    (mp psol : Clvm) (conds : List Condition)
    (hcanon : ∀ c ∈ conds, c.canonical) :
    runDelegationLayer sh args ⟨mp, .quoted (encodeConditionList conds), psol⟩ =
      .ok (encodeConditionList
        (delegOutput args.launcher_id args.owner_puzzle_hash sh conds)) := by
  unfold runDelegationLayer delegOutput
  simp only
  rw [decodeConditionList_encode conds hcanon]

/-- C2: delegation branch classification — for every non-launcher datastore
spend whose state-layer inner puzzle is the delegation layer revealing a
quoted list of canonical conditions (metadata-update and merkle-root
conditions included), where the recreation `CreateCoin` selected by the scan
(the last odd-amount `CreateCoin` of the layer's full output) carries at most
one memo and the metadata update, if one is scanned, succeeds:
(a) with no odd-amount `CreateCoin` in the revealed puzzle's own output,
`from_spend` keeps the delegation-layer owner and the caller-supplied
`parent_delegated_puzzles`; (b) with one odd `CreateCoin` whose puzzle hash
re-creates the parent delegation layer, the same owner and the same parent
set; (c) with one odd `CreateCoin` elsewhere, the owner becomes that
`CreateCoin`'s puzzle hash and the delegated set empties. -/
theorem C2_delegation_branches (coin : Coin) (lid dl_lid m uph owner root : Hash)
    (prf : Proof) (amt : Nat) (mp psol : Clvm) (conds : List Condition)
    (parentDps : List DelegatedPuzzle) (ccS : CreateCoin) (m2 : Hash)
    (hph : coin.puzzle_hash ≠ SINGLETON_LAUNCHER_PUZZLE_HASH)
    (hcanon : ∀ c ∈ conds, c.canonical)
    (hcc : lastOdd (delegOutput dl_lid owner
      (delegationCurryHash dl_lid owner root) conds) = some ccS)
    (hmem : ccS.memos.length ≤ 1)
    (hmetaS : ∀ nm, (scanConditions (delegOutput dl_lid owner
        (delegationCurryHash dl_lid owner root) conds)).2 = some nm →
      get_next_metadata m uph nm = .ok m2)
    (hmetaN : (scanConditions (delegOutput dl_lid owner
        (delegationCurryHash dl_lid owner root) conds)).2 = none → m2 = m) :
    (conds.filterMap oddCC? = [] →
      DataStore.from_spend
        ⟨coin, singletonPuzzle lid (nftStatePuzzle (encodeMeta m) uph
            (delegationPuzzle dl_lid owner root)),
          encodeSingletonSolution prf amt
            (DelegationLayerSolution.toClvm
              ⟨mp, .quoted (encodeConditionList conds), psol⟩)⟩ parentDps =
      .ok (some ⟨⟨coin.coinId,
          singletonCurryHash lid (nftStateCurryHash (metaTreeHash m2) uph
            ccS.puzzle_hash), ccS.amount⟩,
        .lineage coin.parent_coin_info
          (nftStateCurryHash (metaTreeHash m) uph
            (delegationCurryHash dl_lid owner root)) coin.amount,
        ⟨lid, m2, owner, parentDps⟩⟩))
  ∧ (∀ cc, conds.filterMap oddCC? = [cc] →
      cc.puzzle_hash = delegationCurryHash dl_lid owner root →
      DataStore.from_spend
        ⟨coin, singletonPuzzle lid (nftStatePuzzle (encodeMeta m) uph
            (delegationPuzzle dl_lid owner root)),
          encodeSingletonSolution prf amt
            (DelegationLayerSolution.toClvm
              ⟨mp, .quoted (encodeConditionList conds), psol⟩)⟩ parentDps =
      .ok (some ⟨⟨coin.coinId,
          singletonCurryHash lid (nftStateCurryHash (metaTreeHash m2) uph
            ccS.puzzle_hash), ccS.amount⟩,
        .lineage coin.parent_coin_info
          (nftStateCurryHash (metaTreeHash m) uph
            (delegationCurryHash dl_lid owner root)) coin.amount,
        ⟨lid, m2, owner, parentDps⟩⟩))
  ∧ (∀ cc, conds.filterMap oddCC? = [cc] →
      cc.puzzle_hash ≠ delegationCurryHash dl_lid owner root →
      DataStore.from_spend
        ⟨coin, singletonPuzzle lid (nftStatePuzzle (encodeMeta m) uph
            (delegationPuzzle dl_lid owner root)),
          encodeSingletonSolution prf amt
            (DelegationLayerSolution.toClvm
              ⟨mp, .quoted (encodeConditionList conds), psol⟩)⟩ parentDps =
      .ok (some ⟨⟨coin.coinId,
          singletonCurryHash lid (nftStateCurryHash (metaTreeHash m2) uph
            ccS.puzzle_hash), ccS.amount⟩,
        .lineage coin.parent_coin_info
          (nftStateCurryHash (metaTreeHash m) uph
            (delegationCurryHash dl_lid owner root)) coin.amount,
        ⟨lid, m2, cc.puzzle_hash, []⟩⟩)) := by
  have hout : run_puzzle (delegationPuzzle dl_lid owner root)
      (DelegationLayerSolution.toClvm
        ⟨mp, .quoted (encodeConditionList conds), psol⟩) =
      .ok (encodeConditionList (delegOutput dl_lid owner
        (delegationCurryHash dl_lid owner root) conds)) := by
    rw [run_puzzle_deleg,
      runDelegationLayer_quoted_out _ _ mp psol conds hcanon]
  have hcanonOut := canonical_delegOutput dl_lid owner
    (delegationCurryHash dl_lid owner root) conds hcanon
  have hfst : (scanConditions (delegOutput dl_lid owner
      (delegationCurryHash dl_lid owner root) conds)).1 = some ccS :=
    (scanConditions_fst _).trans hcc
  refine ⟨?_, ?_, ?_⟩
  · intro hno
    rcases hsnd : (scanConditions (delegOutput dl_lid owner
        (delegationCurryHash dl_lid owner root) conds)).2 with _ | nm
    · have hmm := hmetaN hsnd
      subst hmm
      unfold DataStore.from_spend
      rw [if_neg hph]
      simp only [singletonParse_construct, nftStateParse_construct,
        decodeSingletonSolution_encode, hout,
        decodeConditionList_encode _ hcanonOut, hfst, hsnd]
      rw [if_neg (by omega : ¬ (1 < ccS.memos.length))]
      rw [if_pos ⟨rfl, rfl⟩]
      simp only [curriedArgs_delegationPuzzle, decodeDelegationArgs_list,
        decodeDelegationSolution_toClvm, run_puzzle_quoted,
        decodeRawList_encodeConditionList, map_decode_encode conds hcanon,
        find_of_filterMap_nil conds hno]
      rfl
    · have hg := hmetaS nm hsnd
      unfold DataStore.from_spend
      rw [if_neg hph]
      simp only [singletonParse_construct, nftStateParse_construct,
        decodeSingletonSolution_encode, hout,
        decodeConditionList_encode _ hcanonOut, hfst, hsnd, hg]
      rw [if_neg (by omega : ¬ (1 < ccS.memos.length))]
      rw [if_pos ⟨rfl, rfl⟩]
      simp only [curriedArgs_delegationPuzzle, decodeDelegationArgs_list,
        decodeDelegationSolution_toClvm, run_puzzle_quoted,
        decodeRawList_encodeConditionList, map_decode_encode conds hcanon,
        find_of_filterMap_nil conds hno]
      rfl
  · intro cc hone hb
    rcases hsnd : (scanConditions (delegOutput dl_lid owner
        (delegationCurryHash dl_lid owner root) conds)).2 with _ | nm
    · have hmm := hmetaN hsnd
      subst hmm
      unfold DataStore.from_spend
      rw [if_neg hph]
      simp only [singletonParse_construct, nftStateParse_construct,
        decodeSingletonSolution_encode, hout,
        decodeConditionList_encode _ hcanonOut, hfst, hsnd]
      rw [if_neg (by omega : ¬ (1 < ccS.memos.length))]
      rw [if_pos ⟨rfl, rfl⟩]
      simp only [curriedArgs_delegationPuzzle, decodeDelegationArgs_list,
        decodeDelegationSolution_toClvm, run_puzzle_quoted,
        decodeRawList_encodeConditionList, map_decode_encode conds hcanon,
        find?_of_filterMap_single conds cc hone]
      rw [if_pos (hb.trans (treeHash_delegationPuzzle dl_lid owner root).symm)]
      rfl
    · have hg := hmetaS nm hsnd
      unfold DataStore.from_spend
      rw [if_neg hph]
      simp only [singletonParse_construct, nftStateParse_construct,
        decodeSingletonSolution_encode, hout,
        decodeConditionList_encode _ hcanonOut, hfst, hsnd, hg]
      rw [if_neg (by omega : ¬ (1 < ccS.memos.length))]
      rw [if_pos ⟨rfl, rfl⟩]
      simp only [curriedArgs_delegationPuzzle, decodeDelegationArgs_list,
        decodeDelegationSolution_toClvm, run_puzzle_quoted,
        decodeRawList_encodeConditionList, map_decode_encode conds hcanon,
        find?_of_filterMap_single conds cc hone]
      rw [if_pos (hb.trans (treeHash_delegationPuzzle dl_lid owner root).symm)]
      rfl
  · intro cc hone hb
    rcases hsnd : (scanConditions (delegOutput dl_lid owner
        (delegationCurryHash dl_lid owner root) conds)).2 with _ | nm
    · have hmm := hmetaN hsnd
      subst hmm
      unfold DataStore.from_spend
      rw [if_neg hph]
      simp only [singletonParse_construct, nftStateParse_construct,
        decodeSingletonSolution_encode, hout,
        decodeConditionList_encode _ hcanonOut, hfst, hsnd]
      rw [if_neg (by omega : ¬ (1 < ccS.memos.length))]
      rw [if_pos ⟨rfl, rfl⟩]
      simp only [curriedArgs_delegationPuzzle, decodeDelegationArgs_list,
        decodeDelegationSolution_toClvm, run_puzzle_quoted,
        decodeRawList_encodeConditionList, map_decode_encode conds hcanon,
        find?_of_filterMap_single conds cc hone]
      rw [if_neg (fun hx => hb (hx.trans (treeHash_delegationPuzzle dl_lid owner root)))]
      rfl
    · have hg := hmetaS nm hsnd
      unfold DataStore.from_spend
      rw [if_neg hph]
      simp only [singletonParse_construct, nftStateParse_construct,
        decodeSingletonSolution_encode, hout,
        decodeConditionList_encode _ hcanonOut, hfst, hsnd, hg]
      rw [if_neg (by omega : ¬ (1 < ccS.memos.length))]
      rw [if_pos ⟨rfl, rfl⟩]
      simp only [curriedArgs_delegationPuzzle, decodeDelegationArgs_list,
        decodeDelegationSolution_toClvm, run_puzzle_quoted,
        decodeRawList_encodeConditionList, map_decode_encode conds hcanon,
        find?_of_filterMap_single conds cc hone]
      rw [if_neg (fun hx => hb (hx.trans (treeHash_delegationPuzzle dl_lid owner root)))]
      rfl

/-- Witness for C2 at a writer-style metadata-update spend: the revealed
delegated puzzle emits one `NewMetadataCondition` and no `CreateCoin`, so the
layer injects its own re-creation; `from_spend` keeps the delegation-layer
owner, returns the caller-supplied parent delegated set, and applies the
metadata update. -/
theorem C2_witness :
    DataStore.from_spend
      ⟨⟨.atomH [1], .atomH [2], 1⟩,
        singletonPuzzle (.atomH [3])
          (nftStatePuzzle (encodeMeta (.atomH [5])) (.atomH [6])
            (delegationPuzzle (.atomH [4]) (.atomH [7]) (.atomH [8]))),
        encodeSingletonSolution (.eve (.atomH [1]) 1) 1
          (DelegationLayerSolution.toClvm
            ⟨.atom [], .quoted (encodeConditionList
              [DataStore.new_metadata_condition (.atomH [9])]), .atom []⟩)⟩
      [.admin (.atomH [10])] =
      .ok (some ⟨⟨(Coin.mk (.atomH [1]) (.atomH [2]) 1).coinId,
          singletonCurryHash (.atomH [3])
            (nftStateCurryHash (metaTreeHash (.atomH [9])) (.atomH [6])
              (delegationCurryHash (.atomH [4]) (.atomH [7]) (.atomH [8]))), 1⟩,
        .lineage (.atomH [1])
          (nftStateCurryHash (metaTreeHash (.atomH [5])) (.atomH [6])
            (delegationCurryHash (.atomH [4]) (.atomH [7]) (.atomH [8]))) 1,
        ⟨.atomH [3], .atomH [9], .atomH [7], [.admin (.atomH [10])]⟩⟩) :=
  (C2_delegation_branches ⟨.atomH [1], .atomH [2], 1⟩ (.atomH [3]) (.atomH [4])
    (.atomH [5]) (.atomH [6]) (.atomH [7]) (.atomH [8])
    (.eve (.atomH [1]) 1) 1 (.atom []) (.atom [])
    [DataStore.new_metadata_condition (.atomH [9])] [.admin (.atomH [10])]
    ⟨delegationCurryHash (.atomH [4]) (.atomH [7]) (.atomH [8]), 1, []⟩
    (.atomH [9])
    (by decide) (by decide) (by decide) (by decide)
    (by
      intro nm h
      rw [(by decide : (scanConditions (delegOutput (.atomH [4]) (.atomH [7])
          (delegationCurryHash (.atomH [4]) (.atomH [7]) (.atomH [8]))
          [DataStore.new_metadata_condition (.atomH [9])])).2 =
        some ⟨.atom (encNat 11),
          Clvm.clist [Clvm.clist [encodeMeta (.atomH [9]),
            .hashAtom DL_METADATA_UPDATER_PUZZLE_HASH], .atom []]⟩)] at h
      injection h with h2
      subst h2
      decide)
    (fun h => absurd h (by decide))).1 rfl

theorem decodeNMC_toClvm (c : NewMetadataCondition) :
    decodeNewMetadataCondition c.toClvm = .ok c := by
  cases c
  simp [NewMetadataCondition.toClvm, Clvm.clist, decodeNewMetadataCondition, intAtom]

theorem decodeNMR_on_nmc (c : NewMetadataCondition) :
    decodeNewMerkleRootCondition c.toClvm = .error .custom := by
  cases c
  simp only [NewMetadataCondition.toClvm, Clvm.clist, decodeNewMerkleRootCondition]
  rw [if_neg (by decide : ¬ (intAtom (-24) = intAtom (-13)))]

theorem canonical_nmc (nm : Hash) :
    (DataStore.new_metadata_condition nm).canonical := by
  rfl

theorem canonical_owner_cc (l o : Hash) (dps : List DelegatedPuzzle) (b : Bool) :
    (DataStore.owner_create_coin_condition l o dps b).canonical :=
  canonical_createCoin _

theorem owner_cc_eq (l o : Hash) (dps : List DelegatedPuzzle) :
    DataStore.owner_create_coin_condition l o dps true =
      .createCoin ⟨innerPhOfInfo ⟨l, .atomH [], o, dps⟩, 1,
        get_recreation_memos l o dps⟩ := rfl

theorem delegMapCond_nmc (l o : Hash) (c : NewMetadataCondition) :
    delegMapCond l o (.other c.toClvm) = .other c.toClvm := by
  simp [delegMapCond, decodeNMR_on_nmc]

theorem runDelegationLayer_quoted_map (sh : Hash) (args : DelegationLayerArgs)
    (mp psol : Clvm) (conds : List Condition)
    (hcanon : ∀ c ∈ conds, c.canonical)
    (hmap : conds.map (delegMapCond args.launcher_id args.owner_puzzle_hash) = conds) :
    runDelegationLayer sh args ⟨mp, .quoted (encodeConditionList conds), psol⟩ =
      .ok (encodeConditionList
        (if conds.any isOddCreateCoin then conds
         else conds ++ [.createCoin ⟨sh, 1, []⟩])) := by
  unfold runDelegationLayer
  simp only
  rw [decodeConditionList_encode conds hcanon]
  simp only [hmap]

theorem get_next_metadata_nmc (m uph nm : Hash) :
    get_next_metadata m uph
      ⟨.atom (encNat 11),
        Clvm.clist [Clvm.clist [encodeMeta nm,
          .hashAtom DL_METADATA_UPDATER_PUZZLE_HASH], .atom []]⟩ = .ok nm := rfl

theorem scanConditions_single_cc (p : Hash) (ms : List Bytes) :
    scanConditions [.createCoin ⟨p, 1, ms⟩] = (some ⟨p, 1, ms⟩, none) := rfl

theorem scanConditions_nmc_cc (p : NewMetadataCondition) (ph : Hash) (ms : List Bytes) :
    scanConditions [.other p.toClvm, .createCoin ⟨ph, 1, ms⟩] =
      (some ⟨ph, 1, ms⟩, some p) := by
  simp [scanConditions, scanStep, decodeNMC_toClvm]

/-- C1: parse-after-construct — for every `DataStore` `d` and every valid
recreation inner spend (the owner re-creation `CreateCoin` with hinted
memos, optionally preceded by a metadata-update condition),
`DataStore::from_spend` applied to the `CoinSpend` produced by
`DataStore::spend` with `d.info.delegated_puzzles` as the parent snapshot
returns `Ok(Some d')` for the successor datastore, and the successor
coin's puzzle hash equals the tree hash of the puzzle constructed from the
successor info. -/
theorem C1_parse_after_construct (d : DataStore) (innerSol : Clvm) (newOwner : Hash)
    (newDps : List DelegatedPuzzle) (newMeta : Option Hash)
    (hph : d.coin.puzzle_hash ≠ SINGLETON_LAUNCHER_PUZZLE_HASH) :
    DataStore.from_spend
        (d.spend ⟨.quoted (encodeConditionList
            (validRecreationConds d.info.launcher_id newOwner newDps newMeta)),
          innerSol⟩)
        d.info.delegated_puzzles =
      .ok (some ⟨⟨d.coin.coinId,
          infoPuzzleHash ⟨d.info.launcher_id, newMeta.getD d.info.metadata,
            newOwner, newDps⟩, 1⟩,
        .lineage d.coin.parent_coin_info
          (nftStateCurryHash (metaTreeHash d.info.metadata)
            DL_METADATA_UPDATER_PUZZLE_HASH
            (if d.info.delegated_puzzles.isEmpty then
              treeHash (Clvm.quoted (encodeConditionList
                (validRecreationConds d.info.launcher_id newOwner newDps newMeta)))
            else
              delegationCurryHash d.info.launcher_id d.info.owner_puzzle_hash
                (merkleRoot d.info.delegated_puzzles)))
          d.coin.amount,
        ⟨d.info.launcher_id, newMeta.getD d.info.metadata, newOwner, newDps⟩⟩)
  ∧ (⟨d.coin.coinId, infoPuzzleHash ⟨d.info.launcher_id,
        newMeta.getD d.info.metadata, newOwner, newDps⟩, 1⟩ : Coin).puzzle_hash =
      infoPuzzleHash ⟨d.info.launcher_id, newMeta.getD d.info.metadata,
        newOwner, newDps⟩ := by
  refine ⟨?_, rfl⟩
  have hlen : 1 < (get_recreation_memos d.info.launcher_id newOwner newDps).length := by
    simp only [get_recreation_memos, List.length_cons]
    omega
  cases hdl : d.info.delegated_puzzles with
  | nil =>
    cases newMeta with
    | none =>
      have hconds : validRecreationConds d.info.launcher_id newOwner newDps none =
          [.createCoin ⟨innerPhOfInfo ⟨d.info.launcher_id, .atomH [], newOwner, newDps⟩,
            1, get_recreation_memos d.info.launcher_id newOwner newDps⟩] := rfl
      rw [hconds]
      have hcanonV : ∀ c ∈ [(.createCoin ⟨innerPhOfInfo
            ⟨d.info.launcher_id, .atomH [], newOwner, newDps⟩, 1,
            get_recreation_memos d.info.launcher_id newOwner newDps⟩ : Condition)],
          Condition.canonical c := by
        intro c hc
        rw [List.mem_singleton.mp hc]
        exact canonical_createCoin _
      unfold DataStore.spend
      rw [hdl]
      simp only [List.isEmpty_nil]
      rw [if_pos trivial]
      unfold DataStore.from_spend
      rw [if_neg hph]
      simp only [singletonParse_construct, nftStateParse_construct,
        decodeSingletonSolution_encode, run_puzzle_quoted,
        decodeConditionList_encode _ hcanonV, scanConditions_single_cc]
      rw [if_pos hlen]
      simp only [build_datastore_recreation]
      rfl
    | some nm =>
      have hconds : validRecreationConds d.info.launcher_id newOwner newDps (some nm) =
          [.other (NewMetadataCondition.toClvm ⟨.atom (encNat 11),
              Clvm.clist [Clvm.clist [encodeMeta nm,
                .hashAtom DL_METADATA_UPDATER_PUZZLE_HASH], .atom []]⟩),
           .createCoin ⟨innerPhOfInfo ⟨d.info.launcher_id, .atomH [], newOwner, newDps⟩,
            1, get_recreation_memos d.info.launcher_id newOwner newDps⟩] := rfl
      rw [hconds]
      have hcanonV : ∀ c ∈
          [(.other (NewMetadataCondition.toClvm ⟨.atom (encNat 11),
              Clvm.clist [Clvm.clist [encodeMeta nm,
                .hashAtom DL_METADATA_UPDATER_PUZZLE_HASH], .atom []]⟩) : Condition),
           (.createCoin ⟨innerPhOfInfo ⟨d.info.launcher_id, .atomH [], newOwner, newDps⟩,
            1, get_recreation_memos d.info.launcher_id newOwner newDps⟩ : Condition)],
          Condition.canonical c := by
        intro c hc
        rcases List.mem_cons.mp hc with h | h
        · rw [h]; exact canonical_nmc nm
        · rw [List.mem_singleton.mp h]; exact canonical_createCoin _
      unfold DataStore.spend
      rw [hdl]
      simp only [List.isEmpty_nil]
      rw [if_pos trivial]
      unfold DataStore.from_spend
      rw [if_neg hph]
      simp only [singletonParse_construct, nftStateParse_construct,
        decodeSingletonSolution_encode, run_puzzle_quoted,
        decodeConditionList_encode _ hcanonV, scanConditions_nmc_cc,
        get_next_metadata_nmc]
      rw [if_pos hlen]
      simp only [build_datastore_recreation]
      rfl
  | cons dp rest =>
    cases newMeta with
    | none =>
      have hconds : validRecreationConds d.info.launcher_id newOwner newDps none =
          [.createCoin ⟨innerPhOfInfo ⟨d.info.launcher_id, .atomH [], newOwner, newDps⟩,
            1, get_recreation_memos d.info.launcher_id newOwner newDps⟩] := rfl
      rw [hconds]
      have hcanonV : ∀ c ∈ [(.createCoin ⟨innerPhOfInfo
            ⟨d.info.launcher_id, .atomH [], newOwner, newDps⟩, 1,
            get_recreation_memos d.info.launcher_id newOwner newDps⟩ : Condition)],
          Condition.canonical c := by
        intro c hc
        rw [List.mem_singleton.mp hc]
        exact canonical_createCoin _
      have hmap : [(.createCoin ⟨innerPhOfInfo
            ⟨d.info.launcher_id, .atomH [], newOwner, newDps⟩, 1,
            get_recreation_memos d.info.launcher_id newOwner newDps⟩ : Condition)].map
          (delegMapCond d.info.launcher_id d.info.owner_puzzle_hash) =
          [(.createCoin ⟨innerPhOfInfo
            ⟨d.info.launcher_id, .atomH [], newOwner, newDps⟩, 1,
            get_recreation_memos d.info.launcher_id newOwner newDps⟩ : Condition)] := rfl
      have hany : [(.createCoin ⟨innerPhOfInfo
            ⟨d.info.launcher_id, .atomH [], newOwner, newDps⟩, 1,
            get_recreation_memos d.info.launcher_id newOwner newDps⟩ : Condition)].any
          isOddCreateCoin = true := rfl
      unfold DataStore.spend
      rw [hdl]
      rw [if_neg (by simp)]
      have hrun : run_puzzle
          (delegationPuzzle d.info.launcher_id d.info.owner_puzzle_hash
            (merkleRoot (dp :: rest)))
          (DelegationLayerSolution.toClvm
            ⟨encodeOptClvm (getProof (dp :: rest)
                (treeHash (Clvm.quoted (encodeConditionList
                  [.createCoin ⟨innerPhOfInfo
                      ⟨d.info.launcher_id, .atomH [], newOwner, newDps⟩, 1,
                    get_recreation_memos d.info.launcher_id newOwner newDps⟩])))),
              .quoted (encodeConditionList
                [.createCoin ⟨innerPhOfInfo
                    ⟨d.info.launcher_id, .atomH [], newOwner, newDps⟩, 1,
                  get_recreation_memos d.info.launcher_id newOwner newDps⟩]),
              innerSol⟩) =
          .ok (encodeConditionList
            [.createCoin ⟨innerPhOfInfo
                ⟨d.info.launcher_id, .atomH [], newOwner, newDps⟩, 1,
              get_recreation_memos d.info.launcher_id newOwner newDps⟩]) := by
        rw [run_puzzle_deleg, runDelegationLayer_quoted_map _ _ _ _ _ hcanonV hmap, hany]
        simp
      unfold DataStore.from_spend
      rw [if_neg hph]
      simp only [singletonParse_construct, nftStateParse_construct,
        decodeSingletonSolution_encode, hrun,
        decodeConditionList_encode _ hcanonV, scanConditions_single_cc]
      rw [if_pos hlen]
      simp only [build_datastore_recreation]
      rfl
    | some nm =>
      have hconds : validRecreationConds d.info.launcher_id newOwner newDps (some nm) =
          [.other (NewMetadataCondition.toClvm ⟨.atom (encNat 11),
              Clvm.clist [Clvm.clist [encodeMeta nm,
                .hashAtom DL_METADATA_UPDATER_PUZZLE_HASH], .atom []]⟩),
           .createCoin ⟨innerPhOfInfo ⟨d.info.launcher_id, .atomH [], newOwner, newDps⟩,
            1, get_recreation_memos d.info.launcher_id newOwner newDps⟩] := rfl
      rw [hconds]
      have hcanonV : ∀ c ∈
          [(.other (NewMetadataCondition.toClvm ⟨.atom (encNat 11),
              Clvm.clist [Clvm.clist [encodeMeta nm,
                .hashAtom DL_METADATA_UPDATER_PUZZLE_HASH], .atom []]⟩) : Condition),
           (.createCoin ⟨innerPhOfInfo ⟨d.info.launcher_id, .atomH [], newOwner, newDps⟩,
            1, get_recreation_memos d.info.launcher_id newOwner newDps⟩ : Condition)],
          Condition.canonical c := by
        intro c hc
        rcases List.mem_cons.mp hc with h | h
        · rw [h]; exact canonical_nmc nm
        · rw [List.mem_singleton.mp h]; exact canonical_createCoin _
      have hmap : [(.other (NewMetadataCondition.toClvm ⟨.atom (encNat 11),
              Clvm.clist [Clvm.clist [encodeMeta nm,
                .hashAtom DL_METADATA_UPDATER_PUZZLE_HASH], .atom []]⟩) : Condition),
           (.createCoin ⟨innerPhOfInfo ⟨d.info.launcher_id, .atomH [], newOwner, newDps⟩,
            1, get_recreation_memos d.info.launcher_id newOwner newDps⟩ : Condition)].map
          (delegMapCond d.info.launcher_id d.info.owner_puzzle_hash) =
          [(.other (NewMetadataCondition.toClvm ⟨.atom (encNat 11),
              Clvm.clist [Clvm.clist [encodeMeta nm,
                .hashAtom DL_METADATA_UPDATER_PUZZLE_HASH], .atom []]⟩) : Condition),
           (.createCoin ⟨innerPhOfInfo ⟨d.info.launcher_id, .atomH [], newOwner, newDps⟩,
            1, get_recreation_memos d.info.launcher_id newOwner newDps⟩ : Condition)] := by
        simp only [List.map_cons, List.map_nil, delegMapCond_nmc]
        rfl
      have hany : [(.other (NewMetadataCondition.toClvm ⟨.atom (encNat 11),
              Clvm.clist [Clvm.clist [encodeMeta nm,
                .hashAtom DL_METADATA_UPDATER_PUZZLE_HASH], .atom []]⟩) : Condition),
           (.createCoin ⟨innerPhOfInfo ⟨d.info.launcher_id, .atomH [], newOwner, newDps⟩,
            1, get_recreation_memos d.info.launcher_id newOwner newDps⟩ : Condition)].any
          isOddCreateCoin = true := rfl
      unfold DataStore.spend
      rw [hdl]
      rw [if_neg (by simp)]
      have hrun : run_puzzle
          (delegationPuzzle d.info.launcher_id d.info.owner_puzzle_hash
            (merkleRoot (dp :: rest)))
          (DelegationLayerSolution.toClvm
            ⟨encodeOptClvm (getProof (dp :: rest)
                (treeHash (Clvm.quoted (encodeConditionList
                  [.other (NewMetadataCondition.toClvm ⟨.atom (encNat 11),
                      Clvm.clist [Clvm.clist [encodeMeta nm,
                        .hashAtom DL_METADATA_UPDATER_PUZZLE_HASH], .atom []]⟩),
                   .createCoin ⟨innerPhOfInfo
                      ⟨d.info.launcher_id, .atomH [], newOwner, newDps⟩, 1,
                    get_recreation_memos d.info.launcher_id newOwner newDps⟩])))),
              .quoted (encodeConditionList
                [.other (NewMetadataCondition.toClvm ⟨.atom (encNat 11),
                    Clvm.clist [Clvm.clist [encodeMeta nm,
                      .hashAtom DL_METADATA_UPDATER_PUZZLE_HASH], .atom []]⟩),
                 .createCoin ⟨innerPhOfInfo
                    ⟨d.info.launcher_id, .atomH [], newOwner, newDps⟩, 1,
                  get_recreation_memos d.info.launcher_id newOwner newDps⟩]),
              innerSol⟩) =
          .ok (encodeConditionList
            [.other (NewMetadataCondition.toClvm ⟨.atom (encNat 11),
                Clvm.clist [Clvm.clist [encodeMeta nm,
                  .hashAtom DL_METADATA_UPDATER_PUZZLE_HASH], .atom []]⟩),
             .createCoin ⟨innerPhOfInfo
                ⟨d.info.launcher_id, .atomH [], newOwner, newDps⟩, 1,
              get_recreation_memos d.info.launcher_id newOwner newDps⟩]) := by
        rw [run_puzzle_deleg, runDelegationLayer_quoted_map _ _ _ _ _ hcanonV hmap, hany]
        simp
      unfold DataStore.from_spend
      rw [if_neg hph]
      simp only [singletonParse_construct, nftStateParse_construct,
        decodeSingletonSolution_encode, hrun,
        decodeConditionList_encode _ hcanonV, scanConditions_nmc_cc,
        get_next_metadata_nmc]
      rw [if_pos hlen]
      simp only [build_datastore_recreation]
      rfl

theorem C1_witness :
    DataStore.from_spend
        (DataStore.spend ⟨⟨.atomH [1], .atomH [2], 1⟩, .eve (.atomH [1]) 1,
            ⟨.atomH [3], .atomH [4], .atomH [5], []⟩⟩
          ⟨.quoted (encodeConditionList
              (validRecreationConds (.atomH [3]) (.atomH [6]) [] none)), .atom []⟩)
        [] =
      .ok (some ⟨⟨(Coin.mk (.atomH [1]) (.atomH [2]) 1).coinId,
          infoPuzzleHash ⟨.atomH [3], .atomH [4], .atomH [6], []⟩, 1⟩,
        .lineage (.atomH [1])
          (nftStateCurryHash (metaTreeHash (.atomH [4]))
            DL_METADATA_UPDATER_PUZZLE_HASH
            (treeHash (Clvm.quoted (encodeConditionList
              (validRecreationConds (.atomH [3]) (.atomH [6]) [] none))))) 1,
        ⟨.atomH [3], .atomH [4], .atomH [6], []⟩⟩) :=
  (C1_parse_after_construct ⟨⟨.atomH [1], .atomH [2], 1⟩, .eve (.atomH [1]) 1,
      ⟨.atomH [3], .atomH [4], .atomH [5], []⟩⟩ (.atom []) (.atomH [6]) [] none
      (by decide)).1

end ChiaSdk
